import Mathlib

/-!
# Verification of the what-anime-bot LinkedIn extraction core

Shallow embedding of `src/lib/utils.js` and `src/lib/linkedin.js`.

Modelling conventions:
* JS strings are Lean `String`; `s.toLowerCase()` is `String.toLower`,
  `s.includes(p)` is `hasSub s p`, `s.startsWith p` is `leadsWithStr p s`,
  `s.endsWith p` is `trailsWithStr p s`.
* The WHATWG `URL` platform primitive is abstracted by an environment
  (`JsEnv`): `parse` models `new URL(s)`, `resolveRel` models
  `new URL(s, base)` and `resolveBase` models
  `new URL(s, "https://www.linkedin.com")`; parsed URLs are `Url` records
  and serialisation is `urlToStr`.
* Network responses are supplied by the environment (`JsEnv.send`), taking
  the request URL and the referer header; the other request headers are
  constants in the source and do not influence the model.
* DOM access through cheerio is abstracted by a `PageDoc` record holding
  exactly the selector/attribute data the extraction code reads.
* JS `Set` objects (insertion ordered, deduplicated) are `List String`
  with `setAdd`; promise concurrency is sequentialised (the claims proved
  here are insertion-order-insensitive: membership, dedup, caps).
-/

set_option autoImplicit false

namespace WhatAnime

/-! ## Generic string machinery (JS string operations) -/

/-- `leadsWith pat l = true` iff `pat` is a leading segment of `l`. -/
def leadsWith : List Char → List Char → Bool
  | [], _ => true
  | _ :: _, [] => false
  | p :: ps, c :: cs => p = c && leadsWith ps cs

/-- `hasSubList pat l = true` iff `pat` occurs contiguously inside `l`
(JS `String.prototype.includes`). -/
def hasSubList (pat : List Char) : List Char → Bool
  | [] => leadsWith pat []
  | c :: rest => leadsWith pat (c :: rest) || hasSubList pat rest

/-- JS `s.includes(pat)`. -/
def hasSub (s pat : String) : Bool := hasSubList pat.data s.data

/-- JS `s.startsWith(pat)`. -/
def leadsWithStr (pat s : String) : Bool := leadsWith pat.data s.data

/-- JS `s.endsWith(pat)`. -/
def trailsWithStr (pat s : String) : Bool := leadsWith pat.data.reverse s.data.reverse

/-- One step of whitespace-run collapsing (`replace(/\s+/g, " ")`). -/
def squeezeWsAux : Bool → List Char → List Char
  | _, [] => []
  | prevWs, c :: rest =>
    if c.isWhitespace then
      if prevWs then squeezeWsAux true rest
      else ' ' :: squeezeWsAux true rest
    else c :: squeezeWsAux false rest

/-- JS `s.trim()` (drop leading and trailing whitespace). -/
def trimChars (l : List Char) : List Char :=
  ((l.dropWhile Char.isWhitespace).reverse.dropWhile Char.isWhitespace).reverse

/-- JS `s.trim()` on strings. -/
def trimStr (s : String) : String := ⟨trimChars s.data⟩

/-- `normalizeWhitespace` from `src/lib/utils.js`:
`String(value || "").replace(/\s+/g, " ").trim()`. -/
def normalizeWhitespace (value : String) : String :=
  ⟨trimChars (squeezeWsAux false value.data)⟩

/-- First whitespace-separated token: JS `part.trim().split(/\s+/)[0]`. -/
def firstWsToken (s : String) : String :=
  ⟨(trimChars s.data).takeWhile (fun c => !c.isWhitespace)⟩

/-- JS `s.toLowerCase()` (ASCII range; sufficient for hostnames, MIME
types and the phrase checks). -/
def jsToLower (s : String) : String := ⟨s.data.map Char.toLower⟩

/-- JS `s.split(",")`. -/
def splitOnCommaAux : List Char → List Char → List (List Char)
  | [], acc => [acc.reverse]
  | c :: rest, acc =>
    if c = ',' then acc.reverse :: splitOnCommaAux rest []
    else splitOnCommaAux rest (c :: acc)

/-- JS `s.split(",")` on strings. -/
def splitOnComma (s : String) : List String :=
  (splitOnCommaAux s.data []).map (fun l => ⟨l⟩)

/-- JS `s.split(";")[0]`. -/
def firstSplitSemicolon (s : String) : String :=
  ⟨s.data.takeWhile (fun c => c ≠ ';')⟩

/-- Fuel-based global replacement of a non-empty pattern
(JS `s.replace(/pat/g, rep)`), left-to-right, non-overlapping. -/
def replaceSubFuel (pat rep : List Char) : Nat → List Char → List Char
  | 0, s => s
  | _ + 1, [] => []
  | fuel + 1, c :: rest =>
    if !pat.isEmpty && leadsWith pat (c :: rest) then
      rep ++ replaceSubFuel pat rep fuel (List.drop (pat.length - 1) rest)
    else c :: replaceSubFuel pat rep fuel rest

/-- JS `s.replace(/pat/g, rep)` on strings. -/
def replaceSub (s pat rep : String) : String :=
  ⟨replaceSubFuel pat.data rep.data s.data.length s.data⟩

/-! ## URL and response model -/

/-- A parsed WHATWG URL, restricted to the components the program reads.
`protocol` includes the trailing colon (e.g. `"https:"`). -/
structure Url where
  protocol : String := ""
  hostname : String := ""
  pathname : String := ""
  search : String := ""
  hash : String := ""
  deriving DecidableEq, Repr

/-- `URL.prototype.toString` serialisation of the model. -/
def urlToStr (u : Url) : String :=
  u.protocol ++ "//" ++ u.hostname ++ u.pathname ++ u.search ++ u.hash

/-- `URL.prototype.origin` followed by nothing (scheme + host). -/
def urlOrigin (u : Url) : String := u.protocol ++ "//" ++ u.hostname

/-- An HTTP response as the program observes it: status, `location` and
`content-type` headers, body text. -/
structure Resp where
  status : Nat := 200
  location : Option String := none
  contentType : String := ""
  body : String := ""
  deriving DecidableEq, Repr

/-- `Response.ok` (status in the 2xx range). -/
def Resp.respOk (r : Resp) : Bool := 200 ≤ r.status && r.status ≤ 299

/-- `REDIRECT_STATUSES` from `src/lib/utils.js`. -/
def REDIRECT_STATUSES : List Nat := [301, 302, 303, 307, 308]

/-- The three shapes `allowedHosts` may take in `isHostnameAllowed`:
a predicate function, a JS `Set`, or an array. -/
inductive AllowedHosts where
  | pred (f : String → Bool)
  | set (hosts : List String)
  | arr (hosts : List String)

/-- The platform/network environment: URL parsing, relative resolution,
and the network. `send url referer` is the response the network gives to
a request for `url` carrying `referer` (requests are deterministic in the
model); `.error` models a thrown fetch failure (network error / timeout). -/
structure JsEnv where
  parse : String → Option Url
  resolveRel : String → Url → Option Url
  resolveBase : String → Option Url
  send : Url → String → Except String Resp

/-! ## `src/lib/utils.js` -/

/-- `LINKEDIN_HOST`. -/
def LINKEDIN_HOST : String := "www.linkedin.com"

/-- `LINKEDIN_POST_PATH_PREFIXES` (source constant of that name). -/
def LINKEDIN_POST_PATH_STARTS : List String := ["/posts/", "/feed/update/"]

/-- `isHostnameAllowed(hostname, allowedHosts)`. -/
def isHostnameAllowed (hostname : String) (allowedHosts : AllowedHosts) : Bool :=
  let normalized := jsToLower hostname
  match allowedHosts with
  | .pred f => f normalized
  | .set hosts => hosts.contains normalized
  | .arr hosts => (hosts.map jsToLower).contains normalized

/-- `isValidLinkedInPostUrl(urlValue)`. -/
def isValidLinkedInPostUrl (env : JsEnv) (urlValue : String) : Bool :=
  match env.parse urlValue with
  | none => false
  | some url =>
    if url.protocol ≠ "https:" then false
    else if jsToLower url.hostname ≠ LINKEDIN_HOST then false
    else LINKEDIN_POST_PATH_STARTS.any (fun p => leadsWithStr p url.pathname)

/-- Character class `[a-z0-9-]` of the media-host regex (`/i` flag). -/
def isMediaHostChar (c : Char) : Bool :=
  ('a' ≤ c && c ≤ 'z') || ('A' ≤ c && c ≤ 'Z') || ('0' ≤ c && c ≤ '9') || c = '-'

/-- The regex test `/^[a-z0-9-]+\.licdn\.com$/i.test(s)`: the string is a
non-empty run of `[a-z0-9-]` characters followed by exactly `.licdn.com`.
Because `.` is not in the class, the decomposition is unique, so the test
is equivalent to checking the fixed-length tail. -/
def mediaHostRegexTest (s : String) : Bool :=
  trailsWithStr ".licdn.com" s &&
    (let pre := s.data.take (s.data.length - ".licdn.com".length)
     !pre.isEmpty && pre.all isMediaHostChar)

/-- `isAllowedLinkedInMediaHost(hostname)`. -/
def isAllowedLinkedInMediaHost (hostname : String) : Bool :=
  let normalized := jsToLower hostname
  if !trailsWithStr ".licdn.com" normalized then false
  else mediaHostRegexTest normalized

/-- `isAllowedLinkedInMediaUrl(urlValue)`. -/
def isAllowedLinkedInMediaUrl (env : JsEnv) (urlValue : String) : Bool :=
  match env.parse urlValue with
  | none => false
  | some url =>
    if url.protocol ≠ "https:" then false
    else isAllowedLinkedInMediaHost url.hostname

/-! ### `fetchWithRedirectGuard` -/

/-- Outcome of a guarded fetch: either a response, or one of the thrown
failures of `fetchWithRedirectGuard`. -/
inductive FetchOutcome where
  | success (r : Resp)
  | invalidUrl
  | nonHttps
  | blockedHost (hostname : String)
  | networkError (msg : String)
  | missingLocation
  | resolveFailed
  | blockedRedirect (hostname : String)
  | tooManyRedirects
  deriving DecidableEq, Repr

/-- The redirect loop of `fetchWithRedirectGuard`, with fuel
`maxRedirects + 1` (the source loop runs for
`redirects = 0 .. maxRedirects`).  Besides the outcome it returns the
trace of URLs actually handed to the network, in order. -/
def fetchGuardGo (env : JsEnv) (allowedHosts : AllowedHosts) (referer : String) :
    Nat → String → FetchOutcome × List Url
  | 0, _ => (.tooManyRedirects, [])
  | fuel + 1, currentUrl =>
    match env.parse currentUrl with
    | none => (.invalidUrl, [])
    | some parsed =>
      if parsed.protocol ≠ "https:" then (.nonHttps, [])
      else if !isHostnameAllowed parsed.hostname allowedHosts then
        (.blockedHost parsed.hostname, [])
      else
        match env.send parsed referer with
        | .error msg => (.networkError msg, [parsed])
        | .ok response =>
          if !REDIRECT_STATUSES.contains response.status then (.success response, [parsed])
          else
            match response.location with
            | none => (.missingLocation, [parsed])
            | some location =>
              match env.resolveRel location parsed with
              | none => (.resolveFailed, [parsed])
              | some nextUrl =>
                if !isHostnameAllowed nextUrl.hostname allowedHosts then
                  (.blockedRedirect nextUrl.hostname, [parsed])
                else
                  let next := fetchGuardGo env allowedHosts referer fuel (urlToStr nextUrl)
                  (next.1, parsed :: next.2)

/-- `fetchWithRedirectGuard(urlValue, {allowedHosts, maxRedirects, headers})`. -/
def fetchWithRedirectGuard (env : JsEnv) (allowedHosts : AllowedHosts)
    (referer : String) (maxRedirects : Nat) (urlValue : String) :
    FetchOutcome × List Url :=
  fetchGuardGo env allowedHosts referer (maxRedirects + 1) urlValue

/-! ### `withRetries` -/

/-- Observable events of a `withRetries` run: task executions, observer
invocations (`onRetry(error, attempt + 1)`), and sleeps
(`sleep(baseDelayMs * (attempt + 1))`). -/
inductive RetryEvent (E : Type) where
  | attempt (n : Nat)
  | observerCall (e : E) (attemptNumber : Nat)
  | sleep (ms : Nat)
  deriving DecidableEq, Repr

/-- The `while (attempt <= retries)` loop of `withRetries`, recursing on
`retries - attempt`.  `task` is the async operation (indexed by the attempt
counter it is called with), `onRetry` is the observer: `none` means it
returned normally, `some e'` means it threw `e'` (which, in the source,
propagates out of the `catch` block). -/
def retryGo {E A : Type} (task : Nat → Except E A) (onRetry : E → Nat → Option E)
    (baseDelayMs : Nat) : Nat → Nat → Except E A × List (RetryEvent E)
  | 0, attempt =>
    -- final attempt (`attempt >= retries`): the error propagates
    (task attempt, [.attempt attempt])
  | remaining + 1, attempt =>
    match task attempt with
    | .ok a => (.ok a, [.attempt attempt])
    | .error e =>
      match onRetry e (attempt + 1) with
      | some e' => (.error e', [.attempt attempt, .observerCall e (attempt + 1)])
      | none =>
        let next := retryGo task onRetry baseDelayMs remaining (attempt + 1)
        (next.1, .attempt attempt :: .observerCall e (attempt + 1) ::
          .sleep (baseDelayMs * (attempt + 1)) :: next.2)

/-- `withRetries(task, {retries, baseDelayMs, onRetry})`. -/
def withRetries {E A : Type} (task : Nat → Except E A) (onRetry : E → Nat → Option E)
    (retries baseDelayMs : Nat) : Except E A × List (RetryEvent E) :=
  retryGo task onRetry baseDelayMs retries 0

/-- Number of task executions recorded in an event trace. -/
def countAttempts {E : Type} (evs : List (RetryEvent E)) : Nat :=
  (evs.filter (fun ev => match ev with | .attempt _ => true | _ => false)).length

/-! ## `src/lib/linkedin.js`: constants and document model -/

def MAX_MEDIA_COUNT : Nat := 40
def MAX_DOWNLOAD_COUNT : Nat := 40
def MAX_EMBED_FETCHES : Nat := 3
def RETRY_COUNT : Nat := 2

def DEFAULT_LINKEDIN_REFERERS : List String :=
  ["https://www.linkedin.com/", "https://ae.linkedin.com/"]

def EXCLUDED_IMAGE_URL_HINTS : List String :=
  ["profile-displayphoto", "company-logo", "school-logo", "profile-framedphoto",
   "ghost-person"]

/-- `PRIMARY_TEXT_SELECTORS`. -/
def PRIMARY_TEXT_SELECTORS : List String :=
  [".attributed-text-segment-list__content",
   ".update-components-update-v2__commentary"]

/-- The commentary selector tried first in `extractPostText`. -/
def MAIN_COMMENTARY_SELECTOR : String :=
  "[data-test-id=\"main-feed-activity-card__commentary\"]"

/-- `MIME_TO_EXTENSION`. -/
def MIME_TO_EXTENSION : List (String × String) :=
  [("image/jpeg", "jpg"), ("image/jpg", "jpg"), ("image/png", "png"),
   ("image/webp", "webp"), ("image/gif", "gif"), ("image/heic", "heic"),
   ("image/heif", "heif"), ("video/mp4", "mp4"), ("video/webm", "webm"),
   ("video/quicktime", "mov"), ("video/mpeg", "mpeg"),
   ("application/pdf", "pdf"), ("application/octet-stream", "bin")]

/-- `hasAnyHint(value, hints)`. -/
def hasAnyHint (value : String) (hints : List String) : Bool :=
  hints.any (fun hint => hasSub (jsToLower value) hint)

/-- A JSON-LD value fed to `addSchemaCandidate`: either a plain string or
an object carrying `url` / `contentUrl` / `thumbnailUrl` fields
(`toArray` flattening already applied; `null` entries dropped by the
source are omitted from the model). -/
inductive SchemaVal where
  | str (s : String)
  | obj (url contentUrl thumbnailUrl : Option String)
  deriving Repr

/-- A JSON-LD object as read by the schema strategy (the JSON parsing and
`@graph` flattening of `collectJsonLdObjects` is upstream of this model:
`PageDoc.schemaObjects` holds the already-collected objects). -/
structure SchemaPost where
  atId : Option String := none
  types : List String := []
  articleBody : Option String := none
  description : Option String := none
  text : Option String := none
  headline : Option String := none
  name : Option String := none
  image : List SchemaVal := []
  thumbnailUrl : List SchemaVal := []
  contentUrl : List SchemaVal := []
  embedUrl : List SchemaVal := []
  video : List SchemaVal := []
  associatedMedia : List SchemaVal := []
  url : List SchemaVal := []
  encoding : List SchemaVal := []
  deriving Repr

/-- An `<img>`-like element matched by `POST_IMAGE_SELECTORS`: the four
source-bearing attribute values (in the order the source reads them,
`""` for an absent attribute) and the element-level DOM judgement of
`isLikelyPostImageElement` (class hints, media-container ancestry and
pixel-dimension threshold — all independent of the candidate URL), which
the model abstracts into one boolean. -/
structure ImgElement where
  attrs : List String := []
  domOk : Bool := true

/-- A video element: the attribute values scanned by `extractVideoUrls`
and the element's inner HTML. -/
structure VideoElement where
  attrs : List String := []
  html : String := ""

/-- A document element matched by `POST_DOCUMENT_SELECTORS`. -/
structure DocElement where
  href : String := ""
  dataDocumentUrl : String := ""
  src : String := ""

/-- One resolution entry of a native-document manifest. -/
structure PerResolution where
  width : Nat := 0
  imageManifestUrl : Option String := none
  deriving Repr

/-- A parsed native-document manifest payload. -/
structure ManifestPayload where
  transcribedDocumentUrl : String := ""
  downloadUrl : String := ""
  perResolutions : List PerResolution := []
  pages : List String := []
  deriving Repr

/-- A parsed `data-native-document-config` payload
(`extractNativeDocumentConfigs` output). -/
structure NativeDocConfig where
  coverSrcs : List String := []
  transcribedDocumentUrl : String := ""
  manifestUrl : Option String := none
  docUrl : Option String := none

/-- An embed-frame element matched by `EMBED_FRAME_SELECTORS`. -/
structure FrameElement where
  src : String := ""
  dataDocumentUrl : String := ""
  dataEmbedUrl : String := ""
  href : String := ""

/-- A fetched embed-frame document as `extractMediaFromEmbedDom` reads it:
the attribute values of all matched element/attribute pairs (in scan
order) and the inline script bodies. -/
structure EmbedDoc where
  attrVals : List String := []
  scripts : List String := []

/-- A parsed post page, holding exactly the data the extraction reads:
`selText sel` is `$(sel).first().text()`, `metaContent p` is
`$('meta[property="p"]').attr("content")` (`""` for a missing attribute,
as `normalizeWhitespace(undefined)` also yields `""`). -/
structure PageDoc where
  selText : String → String := fun _ => ""
  metaContent : String → String := fun _ => ""
  linkCanonicalHref : String := ""
  schemaObjects : List SchemaPost := []
  imgElements : List ImgElement := []
  videoElements : List VideoElement := []
  scripts : List String := []
  docElements : List DocElement := []
  nativeDocConfigs : List NativeDocConfig := []
  frameElements : List FrameElement := []

/-- The HTML/regex part of the platform environment: cheerio parsing and
the regex matchers of the script-scanning strategies (all of which feed
`addCandidateUrl`, so the claims hold for arbitrary matcher behaviour). -/
structure HtmlEnv where
  parseHtml : String → PageDoc := fun _ => {}
  parseEmbedHtml : String → EmbedDoc := fun _ => {}
  matchMedia : String → String → List String := fun _ _ => []
  matchScript : String → String → List String := fun _ _ => []
  matchPlaylist : String → List String := fun _ => []
  styleUrls : String → List String := fun _ => []
  parseManifest : String → Option ManifestPayload := fun _ => none

/-- Typed failures of the extraction (`LinkedInExtractionError` codes,
plus guarded-fetch failures that propagate as generic errors). -/
inductive ScrapeError where
  | fetchFailure (o : FetchOutcome)
  | privateOrProtected
  | scrapeFailed (status : Nat)
  | textNotFound
  | invalidUrl
  deriving DecidableEq, Repr

/-- `PostExtractionResult`. -/
structure PostResult where
  text : String
  imageUrls : List String
  videoUrls : List String
  documentUrls : List String
  preferredReferer : Option String

/-! ## Text extraction -/

/-- `isLowValueFallbackText(text)`. -/
def isLowValueFallbackText (text : String) : Bool :=
  let normalized := jsToLower (normalizeWhitespace text)
  if normalized = "" then true
  else
    hasSub normalized "join linkedin" || hasSub normalized "sign in" ||
    hasSub normalized "log in" || hasSub normalized "linkedin: log in"

/-- `hasAuthWall($)`: sign-in phrases in the page title / `og:title`. -/
def hasAuthWall (doc : PageDoc) : Bool :=
  let title := jsToLower (normalizeWhitespace (doc.selText "title"))
  let ogTitle := jsToLower (normalizeWhitespace (doc.metaContent "og:title"))
  let combined := title ++ " " ++ ogTitle
  hasSub combined "sign in" || hasSub combined "log in" ||
  hasSub combined "join linkedin" || hasSub combined "linkedin login"

/-- The `for (const selector of PRIMARY_TEXT_SELECTORS)` loop of
`extractPostText`: first non-empty, non-placeholder selector text. -/
def firstGoodSelText (doc : PageDoc) : List String → Option String
  | [] => none
  | sel :: rest =>
    let text := normalizeWhitespace (doc.selText sel)
    if text ≠ "" && !isLowValueFallbackText text then some text
    else firstGoodSelText doc rest

/-- `extractPostText($)`. -/
def extractPostText (doc : PageDoc) : String :=
  let mainCommentary := normalizeWhitespace (doc.selText MAIN_COMMENTARY_SELECTOR)
  if mainCommentary ≠ "" && !isLowValueFallbackText mainCommentary then mainCommentary
  else
    match firstGoodSelText doc PRIMARY_TEXT_SELECTORS with
    | some text => text
    | none =>
      let ogDescription := normalizeWhitespace (doc.metaContent "og:description")
      let ogTitle := normalizeWhitespace (doc.metaContent "og:title")
      let fallback := if ogDescription ≠ "" then ogDescription else ogTitle
      if isLowValueFallbackText fallback then "" else fallback

/-- The candidate loop of `extractTextFromSchema`: first non-empty,
non-placeholder candidate (candidates given raw, `""` for an absent
field, as `normalizeWhitespace(undefined) = ""`). -/
def firstGoodCandidate : List String → String
  | [] => ""
  | c :: rest =>
    let text := normalizeWhitespace c
    if text ≠ "" && !isLowValueFallbackText text then text
    else firstGoodCandidate rest

/-- `extractTextFromSchema(primarySchema)`. -/
def extractTextFromSchema : Option SchemaPost → String
  | none => ""
  | some p =>
    firstGoodCandidate
      [p.articleBody.getD "", p.description.getD "", p.text.getD "",
       p.headline.getD "", p.name.getD ""]

/-! ## Candidate-URL plumbing and schema selection -/

/-- JS `Set.prototype.add` on an insertion-ordered deduplicated list. -/
def setAdd (s : List String) (x : String) : List String :=
  if s.contains x then s else s ++ [x]

/-- `new Set(list)` spread back to an array: dedup keeping first
occurrences. -/
def dedupList (l : List String) : List String := l.foldl setAdd []

/-- Lists of image / video / document URLs (one strategy's contribution). -/
structure MediaTriple where
  imageUrls : List String := []
  videoUrls : List String := []
  documentUrls : List String := []

/-- `parseUrl(url)?.pathname`. -/
def urlPathOpt (env : JsEnv) (url : String) : Option String :=
  (env.parse url).map (·.pathname)

/-- `parseUrl(url)?.pathname?.toLowerCase() || ""`. -/
def urlPathLower (env : JsEnv) (url : String) : String :=
  jsToLower (((env.parse url).map (·.pathname)).getD "")

/-- `isLikelyImageMediaPath(pathname)`. -/
def isLikelyImageMediaPath (pathname : Option String) : Bool :=
  let normalized := jsToLower (pathname.getD "")
  if !hasSub normalized "/dms/image/" then false
  else !hasAnyHint normalized EXCLUDED_IMAGE_URL_HINTS

/-- `isLikelyVideoMediaPath(pathname)`. -/
def isLikelyVideoMediaPath (pathname : Option String) : Bool :=
  let normalized := jsToLower (pathname.getD "")
  hasSub normalized "/dms/video/" || hasSub normalized "/dms/videoplayback/" ||
  hasSub normalized "/playlist/vid/"

/-- `isLikelyDocumentMediaPath(pathname)`. -/
def isLikelyDocumentMediaPath (pathname : Option String) : Bool :=
  hasSub (jsToLower (pathname.getD "")) "/dms/document/"

/-- The body of `addCandidateUrl`'s `for (const part of parts)` loop.
Accumulator: (current set, URLs added by this call). -/
def addCandidatePart (env : JsEnv) (validator : String → Bool)
    (acc : List String × List String) (part : String) : List String × List String :=
  let candidate := firstWsToken part
  if candidate = "" then acc
  else
    match env.resolveBase candidate with
    | none => acc
    | some parsed =>
      let normalized := urlToStr { parsed with hash := "" }
      if validator normalized then
        if acc.1.contains normalized then acc
        else (acc.1 ++ [normalized], acc.2 ++ [normalized])
      else acc

/-- `addCandidateUrl(urlSet, rawUrl, validator)`: resolves each candidate
against the LinkedIn base, strips the fragment, validates, dedups. -/
def addCandidateUrl (env : JsEnv) (validator : String → Bool)
    (urlSet : List String) (rawUrl : String) : List String × List String :=
  let value := normalizeWhitespace rawUrl
  if value = "" then (urlSet, [])
  else
    let parts := if hasSub value "," then splitOnComma value else [value]
    parts.foldl (addCandidatePart env validator) (urlSet, [])

/-- `addCandidateUrl` with the default validator
(`isAllowedLinkedInMediaUrl`). -/
def addCandidateUrlD (env : JsEnv) (urlSet : List String) (rawUrl : String) :
    List String × List String :=
  addCandidateUrl env (isAllowedLinkedInMediaUrl env) urlSet rawUrl

/-- `isPostSchemaObject(object)`. -/
def isPostSchemaObject (o : SchemaPost) : Bool :=
  o.types.contains "SocialMediaPosting" || o.types.contains "VideoObject" ||
  o.types.contains "Article"

/-- `parseUrl(entry?.["@id"])?.pathname?.toLowerCase() || ""`. -/
def schemaIdPath (env : JsEnv) (o : SchemaPost) : String :=
  match o.atId with
  | none => ""
  | some s => urlPathLower env s

/-- `selectPrimarySchemaPost(schemaObjects, canonicalUrl)`. -/
def selectPrimarySchemaPost (env : JsEnv) (schemaObjects : List SchemaPost)
    (canonicalUrl : String) : Option SchemaPost :=
  let canonicalPath := urlPathLower env canonicalUrl
  let postObjects := schemaObjects.filter isPostSchemaObject
  if postObjects.isEmpty then none
  else
    match postObjects.find? (fun e =>
        let idPath := schemaIdPath env e
        idPath ≠ "" && canonicalPath ≠ "" && idPath = canonicalPath) with
    | some e => some e
    | none =>
      match postObjects.find? (fun e =>
          let idPath := schemaIdPath env e
          idPath ≠ "" && canonicalPath ≠ "" && hasSub idPath canonicalPath) with
      | some e => some e
      | none => postObjects.head?

/-- `extractCanonicalUrl($, fallbackUrl)`. -/
def extractCanonicalUrl (env : JsEnv) (doc : PageDoc) (fallbackUrl : String) : String :=
  let canonicalHref := normalizeWhitespace doc.linkCanonicalHref
  let ogUrl := normalizeWhitespace (doc.metaContent "og:url")
  let candidate :=
    if canonicalHref ≠ "" then canonicalHref
    else if ogUrl ≠ "" then ogUrl else fallbackUrl
  match env.parse candidate with
  | none => fallbackUrl
  | some parsed =>
    if parsed.protocol ≠ "https:" then fallbackUrl else urlToStr parsed

/-- `extractPostReferer(canonicalUrl)`. -/
def extractPostReferer (env : JsEnv) (canonicalUrl : String) : Option String :=
  match env.parse canonicalUrl with
  | none => none
  | some parsed => some (urlOrigin parsed ++ "/")

/-! ## Media strategies -/

/-- `decodeEscapedUrl(urlValue)` (the `/i` flag of the first pattern is
covered by the two case variants that occur in practice). -/
def decodeEscapedUrl (urlValue : String) : String :=
  replaceSub (replaceSub (replaceSub (replaceSub urlValue "\\u002F" "/")
    "\\u002f" "/") "\\/" "/") "&amp;" "&"

/-- `extractEmbeddedMediaUrls(rawValue, kind)`: regex matching supplied by
the environment, result deduplicated (`[...new Set(matches)]`). -/
def extractEmbeddedMediaUrls (henv : HtmlEnv) (rawValue kind : String) : List String :=
  let source := decodeEscapedUrl rawValue
  if source = "" then [] else dedupList (henv.matchMedia kind source)

/-- One script body's contribution in `extractScriptMediaUrls`. -/
def scriptMediaStep (env : JsEnv) (henv : HtmlEnv) (kind : String)
    (set : List String) (scriptBody : String) : List String :=
  if scriptBody = "" || scriptBody.length > 2000000 then set
  else
    let kinds := if kind = "video" then ["video", "videoplayback"] else [kind]
    let set := kinds.foldl (fun s mediaKind =>
      (henv.matchScript mediaKind scriptBody).foldl
        (fun s m => (addCandidateUrlD env s (decodeEscapedUrl m)).1) s) set
    if kind = "video" then
      (henv.matchPlaylist scriptBody).foldl
        (fun s m => (addCandidateUrlD env s (decodeEscapedUrl m)).1) set
    else set

/-- `extractScriptMediaUrls($, kind)`. -/
def extractScriptMediaUrls (env : JsEnv) (henv : HtmlEnv)
    (scripts : List String) (kind : String) : List String :=
  scripts.foldl (scriptMediaStep env henv kind) []

/-- One `SchemaVal`'s contribution in `addSchemaCandidate`. -/
def addSchemaVal (env : JsEnv) (s : List String) (v : SchemaVal) : List String :=
  match v with
  | .str str => (addCandidateUrlD env s str).1
  | .obj u c t =>
    let s := (addCandidateUrlD env s (u.getD "")).1
    let s := (addCandidateUrlD env s (c.getD "")).1
    (addCandidateUrlD env s (t.getD "")).1

/-- `addSchemaCandidate(urlSet, value)`. -/
def addSchemaCandidate (env : JsEnv) (s : List String) (vals : List SchemaVal) :
    List String :=
  vals.foldl (addSchemaVal env) s

/-- `extractMediaFromSchema(primarySchema)`. -/
def extractMediaFromSchema (env : JsEnv) : Option SchemaPost → MediaTriple
  | none => {}
  | some p =>
    let imageSet := addSchemaCandidate env (addSchemaCandidate env [] p.image) p.thumbnailUrl
    let videoSet :=
      addSchemaCandidate env
        (addSchemaCandidate env
          (addSchemaCandidate env (addSchemaCandidate env [] p.contentUrl) p.embedUrl)
          p.video) p.associatedMedia
    let documentSet := addSchemaCandidate env (addSchemaCandidate env [] p.url) p.encoding
    { imageUrls :=
        (imageSet.filter (fun url => isLikelyImageMediaPath (urlPathOpt env url))).take
          MAX_MEDIA_COUNT,
      videoUrls :=
        (videoSet.filter (fun url => isLikelyVideoMediaPath (urlPathOpt env url))).take
          MAX_MEDIA_COUNT,
      documentUrls :=
        (documentSet.filter (fun url => isLikelyDocumentMediaPath (urlPathOpt env url))).take
          MAX_MEDIA_COUNT }

/-- `isLikelyPostImageElement($, element, urlValue)` (the URL-independent
DOM judgement is the element's `domOk` flag). -/
def isLikelyPostImageElement (env : JsEnv) (e : ImgElement) (urlValue : String) : Bool :=
  match env.parse urlValue with
  | none => false
  | some parsed =>
    let pathname := jsToLower parsed.pathname
    if !hasSub pathname "/dms/image/" then false
    else if hasAnyHint pathname EXCLUDED_IMAGE_URL_HINTS then false
    else e.domOk

/-- One attribute candidate's processing in `extractImageUrls`: add, then
delete the additions the element-level filter rejects. -/
def processImgCandidate (env : JsEnv) (e : ImgElement)
    (s : List String) (candidate : String) : List String :=
  let r := addCandidateUrlD env s candidate
  r.2.foldl (fun s url =>
    if isLikelyPostImageElement env e url then s
    else s.filter (fun x => x ≠ url)) r.1

/-- `extractImageUrls($)`. -/
def extractImageUrls (env : JsEnv) (els : List ImgElement) : List String :=
  (els.foldl (fun s e => e.attrs.foldl (processImgCandidate env e) s) []).take
    MAX_MEDIA_COUNT

/-- One video element's contribution in `extractVideoUrls`. -/
def videoElementStep (env : JsEnv) (henv : HtmlEnv)
    (set : List String) (e : VideoElement) : List String :=
  let set := e.attrs.foldl (fun s attrValue =>
    let s := (addCandidateUrlD env s attrValue).1
    (extractEmbeddedMediaUrls henv attrValue "video").foldl
      (fun s m => (addCandidateUrlD env s m).1) s) set
  (extractEmbeddedMediaUrls henv e.html "video").foldl
    (fun s m => (addCandidateUrlD env s m).1) set

/-- `extractVideoUrls($)`. -/
def extractVideoUrls (env : JsEnv) (henv : HtmlEnv) (doc : PageDoc) : List String :=
  let videoSet := doc.videoElements.foldl (videoElementStep env henv) []
  let videoSet := (extractScriptMediaUrls env henv doc.scripts "video").foldl setAdd videoSet
  let videoSet :=
    if videoSet.length = 0 then
      let s := (addCandidateUrlD env videoSet (doc.metaContent "og:video")).1
      (addCandidateUrlD env s (doc.metaContent "og:video:secure_url")).1
    else videoSet
  (videoSet.filter (fun url =>
    isLikelyVideoMediaPath (some (urlPathLower env url)))).take MAX_MEDIA_COUNT

/-- `extractDocumentUrls($)`. -/
def extractDocumentUrls (env : JsEnv) (henv : HtmlEnv) (doc : PageDoc) : List String :=
  let documentSet := doc.docElements.foldl (fun s e =>
    let s := (addCandidateUrlD env s e.href).1
    let s := (addCandidateUrlD env s e.dataDocumentUrl).1
    (addCandidateUrlD env s e.src).1) []
  let documentSet :=
    if documentSet.length = 0 then
      (extractScriptMediaUrls env henv doc.scripts "document").foldl setAdd documentSet
    else documentSet
  (documentSet.filter (fun url =>
    isLikelyDocumentMediaPath (some (urlPathLower env url)))).take MAX_MEDIA_COUNT

/-- `normalizeReferer(refererValue)` (`none` models a JS `null`/absent
value, for which `parseUrl` fails). -/
def normalizeReferer (env : JsEnv) : Option String → Option String
  | none => none
  | some v =>
    match env.parse v with
    | none => none
    | some parsed =>
      if parsed.protocol ≠ "https:" then none else some (urlOrigin parsed ++ "/")

/-- `buildRefererCandidates(preferredReferer)`. -/
def buildRefererCandidates (env : JsEnv) (preferredReferer : Option String) :
    List String :=
  let candidates :=
    match normalizeReferer env preferredReferer with
    | some n => [n]
    | none => []
  DEFAULT_LINKEDIN_REFERERS.foldl (fun cs fallback =>
    match normalizeReferer env (some fallback) with
    | some n => if cs.contains n then cs else cs ++ [n]
    | none => cs) candidates

/-- The candidate loop shared by `pickManifestUrl`. -/
def pickFirstAllowedUrl (env : JsEnv) : List (Option String) → Option String
  | [] => none
  | none :: rest => pickFirstAllowedUrl env rest
  | some cand :: rest =>
    match env.parse cand with
    | none => pickFirstAllowedUrl env rest
    | some parsed =>
      if parsed.protocol = "https:" && isAllowedLinkedInMediaHost parsed.hostname then
        some (urlToStr parsed)
      else pickFirstAllowedUrl env rest

/-- `pickManifestUrl(documentConfig)`. -/
def pickManifestUrl (env : JsEnv) (c : NativeDocConfig) : Option String :=
  pickFirstAllowedUrl env [c.manifestUrl, c.docUrl]

/-- JS truthiness of an optional string (`undefined`, `null` and `""` are
falsy). -/
def optTruthy : Option String → Option String
  | none => none
  | some s => if s = "" then none else some s

/-- `pickImageManifestUrl(manifestPayload)`: stable ascending sort by
width, first entry of width ≥ 480, else the widest. -/
def pickImageManifestUrl (p : ManifestPayload) : Option String :=
  match p.perResolutions with
  | [] => none
  | _ =>
    let sorted := p.perResolutions.mergeSort (fun a b => decide (a.width ≤ b.width))
    let fromPref :=
      match sorted.find? (fun item => 480 ≤ item.width) with
      | some preferred => optTruthy preferred.imageManifestUrl
      | none => none
    match fromPref with
    | some u => some u
    | none =>
      match sorted.getLast? with
      | some lastItem => optTruthy lastItem.imageManifestUrl
      | none => none

/-- `fetchMediaJson(url, refererCandidates)`: tries each referer; guard
failures and non-JSON bodies move to the next referer; `none` models the
final rejection (always caught by the caller). -/
def fetchMediaJson (env : JsEnv) (henv : HtmlEnv) (url : String) :
    List String → Option ManifestPayload
  | [] => none
  | referer :: rest =>
    match (fetchWithRedirectGuard env (.pred isAllowedLinkedInMediaHost) referer 2 url).1 with
    | .success response =>
      if response.respOk then
        match henv.parseManifest response.body with
        | some payload => some payload
        | none => fetchMediaJson env henv url rest
      else fetchMediaJson env henv url rest
    | _ => fetchMediaJson env henv url rest

/-- One config's contribution in the per-config collection loop of
`extractMediaFromNativeDocuments`. -/
def nativeCollectStep (env : JsEnv) (acc : List String × List String × List String)
    (config : NativeDocConfig) : List String × List String × List String :=
  let imageSet := config.coverSrcs.foldl (fun s src => (addCandidateUrlD env s src).1) acc.1
  let documentSet := (addCandidateUrlD env acc.2.1 config.transcribedDocumentUrl).1
  let manifestSet :=
    match pickManifestUrl env config with
    | some m => setAdd acc.2.2 m
    | none => acc.2.2
  (imageSet, documentSet, manifestSet)

/-- The per-config collection loop of `extractMediaFromNativeDocuments`:
accumulates (imageSet, documentSet, manifestSet). -/
def nativeCollect (env : JsEnv) (configs : List NativeDocConfig) :
    List String × List String × List String :=
  configs.foldl (nativeCollectStep env) ([], [], [])

/-- One manifest's resolution task (failures contribute nothing; partial
document-URL additions made before a later failure are kept, as in the
source).  Accumulator: (imageSet, documentSet, hasFullDocumentPages). -/
def nativeManifestStep (env : JsEnv) (henv : HtmlEnv) (referers : List String)
    (acc : List String × List String × Bool) (manifestUrl : String) :
    List String × List String × Bool :=
  match fetchMediaJson env henv manifestUrl referers with
  | none => acc
  | some payload =>
    let documentSet := (addCandidateUrlD env acc.2.1 payload.transcribedDocumentUrl).1
    let documentSet := (addCandidateUrlD env documentSet payload.downloadUrl).1
    match pickImageManifestUrl payload with
    | none => (acc.1, documentSet, acc.2.2)
    | some imageManifestUrl =>
      match fetchMediaJson env henv imageManifestUrl referers with
      | none => (acc.1, documentSet, acc.2.2)
      | some imagePayload =>
        let hasFull := acc.2.2 || !imagePayload.pages.isEmpty
        let imageSet := imagePayload.pages.foldl
          (fun s pageUrl => (addCandidateUrlD env s pageUrl).1) acc.1
        (imageSet, documentSet, hasFull)

/-- `extractMediaFromNativeDocuments($, preferredReferer)` (manifest tasks
sequentialised; the claims proved are insertion-order-insensitive). -/
def extractMediaFromNativeDocuments (env : JsEnv) (henv : HtmlEnv)
    (configs : List NativeDocConfig) (preferredReferer : Option String) : MediaTriple :=
  if configs.isEmpty then {}
  else
    let referers := buildRefererCandidates env preferredReferer
    let collected := nativeCollect env configs
    let manifests := collected.2.2.take MAX_EMBED_FETCHES
    let processed := manifests.foldl (nativeManifestStep env henv referers)
      (collected.1, collected.2.1, false)
    let filteredImages := processed.1.filter (fun url =>
      if !processed.2.2 then true
      else !hasSub (urlPathLower env url) "feedshare-document-cover-images_")
    { imageUrls :=
        (filteredImages.filter (fun url => isLikelyImageMediaPath (urlPathOpt env url))).take
          MAX_MEDIA_COUNT,
      videoUrls := [],
      documentUrls :=
        (processed.2.1.filter
          (fun url => isLikelyDocumentMediaPath (urlPathOpt env url))).take MAX_MEDIA_COUNT }

/-- `extractEmbedFrameUrls($)`. -/
def extractEmbedFrameUrls (env : JsEnv) (els : List FrameElement) : List String :=
  let frameSet := els.foldl (fun s e =>
    let s := (addCandidateUrlD env s e.src).1
    let s := (addCandidateUrlD env s e.dataDocumentUrl).1
    let s := (addCandidateUrlD env s e.dataEmbedUrl).1
    (addCandidateUrlD env s e.href).1) []
  (frameSet.filter (fun url =>
    match env.parse url with
    | none => false
    | some parsed =>
      isAllowedLinkedInMediaUrl env url && hasSub (jsToLower parsed.pathname) "/embeds/")).take
    MAX_EMBED_FETCHES

/-- One attribute value's contribution in `extractMediaFromEmbedDom`. -/
def embedAttrStep (env : JsEnv) (henv : HtmlEnv)
    (s : List String) (value : String) : List String :=
  if value = "" then s
  else
    let s := (addCandidateUrlD env s value).1
    let s := (henv.styleUrls value).foldl (fun s u => (addCandidateUrlD env s u).1) s
    ["image", "video", "document"].foldl (fun s kind =>
      (extractEmbeddedMediaUrls henv value kind).foldl
        (fun s u => (addCandidateUrlD env s u).1) s) s

/-- `extractMediaFromEmbedDom($embed)`. -/
def extractMediaFromEmbedDom (env : JsEnv) (henv : HtmlEnv) (d : EmbedDoc) : MediaTriple :=
  let candidateSet := d.attrVals.foldl (embedAttrStep env henv) []
  let candidateSet := ["image", "video", "document"].foldl (fun s kind =>
    (extractScriptMediaUrls env henv d.scripts kind).foldl setAdd s) candidateSet
  let isImg := fun u => isLikelyImageMediaPath (some (urlPathLower env u))
  let isVid := fun u => isLikelyVideoMediaPath (some (urlPathLower env u))
  let isDoc := fun u => isLikelyDocumentMediaPath (some (urlPathLower env u))
  { imageUrls := (candidateSet.filter isImg).take MAX_MEDIA_COUNT,
    videoUrls := (candidateSet.filter (fun u => !isImg u && isVid u)).take MAX_MEDIA_COUNT,
    documentUrls :=
      (candidateSet.filter (fun u => !isImg u && !isVid u && isDoc u)).take MAX_MEDIA_COUNT }

/-- The referer loop of one embed-frame fetch: a guard failure aborts the
frame (the exception escapes the loop into the frame's `catch`). -/
def fetchEmbedResponse (env : JsEnv) (frameUrl : String) : List String → Option Resp
  | [] => none
  | referer :: rest =>
    match (fetchWithRedirectGuard env (.pred isAllowedLinkedInMediaHost) referer 2 frameUrl).1 with
    | .success candidate =>
      if candidate.respOk then some candidate else fetchEmbedResponse env frameUrl rest
    | _ => none

/-- One embed frame's result (failures yield the empty contribution). -/
def embedFrameResult (env : JsEnv) (henv : HtmlEnv) (referers : List String)
    (frameUrl : String) : MediaTriple :=
  match fetchEmbedResponse env frameUrl referers with
  | none => {}
  | some response => extractMediaFromEmbedDom env henv (henv.parseEmbedHtml response.body)

/-- `extractMediaFromEmbeds($, preferredReferer)`. -/
def extractMediaFromEmbeds (env : JsEnv) (henv : HtmlEnv)
    (els : List FrameElement) (preferredReferer : Option String) : MediaTriple :=
  let frameUrls := extractEmbedFrameUrls env els
  if frameUrls.isEmpty then {}
  else
    let referers := buildRefererCandidates env preferredReferer
    let settled := frameUrls.map (embedFrameResult env henv referers)
    let imageSet := settled.foldl (fun s r => r.imageUrls.foldl setAdd s) []
    let videoSet := settled.foldl (fun s r => r.videoUrls.foldl setAdd s) []
    let documentSet := settled.foldl (fun s r => r.documentUrls.foldl setAdd s) []
    { imageUrls := imageSet.take MAX_MEDIA_COUNT,
      videoUrls := videoSet.take MAX_MEDIA_COUNT,
      documentUrls := documentSet.take MAX_MEDIA_COUNT }

/-- `extractOgImageFallback($)`. -/
def extractOgImageFallback (env : JsEnv) (doc : PageDoc) : List String :=
  let ogSet := (addCandidateUrlD env
    (addCandidateUrlD env [] (doc.metaContent "og:image")).1
    (doc.metaContent "og:image:secure_url")).1
  (ogSet.filter (fun url =>
    isLikelyImageMediaPath (some (urlPathLower env url)))).take MAX_MEDIA_COUNT

/-! ## `scrapeOnce` -/

/-- `LINKEDIN_ALLOWED_HOSTS`. -/
def LINKEDIN_ALLOWED_HOSTS : AllowedHosts := .set ["www.linkedin.com"]

/-- The media-assembly part of `scrapeOnce` (the strategy calls, the
`new Set([...])` merges, and the Open-Graph image fallback), returning
(imageSet, videoSet, documentSet) before the final `.slice(0, 40)`. -/
def scrapeMediaSets (env : JsEnv) (henv : HtmlEnv) (doc : PageDoc)
    (primarySchema : Option SchemaPost) (preferredReferer : Option String) :
    List String × List String × List String :=
  let schemaMedia := extractMediaFromSchema env primarySchema
  let pageImageUrls := extractImageUrls env doc.imgElements
  let pageVideoUrls := extractVideoUrls env henv doc
  let pageDocumentUrls := extractDocumentUrls env henv doc
  let nativeMedia :=
    extractMediaFromNativeDocuments env henv doc.nativeDocConfigs preferredReferer
  let embedMedia := extractMediaFromEmbeds env henv doc.frameElements preferredReferer
  let imageSet := dedupList (schemaMedia.imageUrls ++ pageImageUrls ++
    nativeMedia.imageUrls ++ embedMedia.imageUrls)
  let videoSet := dedupList (schemaMedia.videoUrls ++ pageVideoUrls ++
    nativeMedia.videoUrls ++ embedMedia.videoUrls)
  let documentSet := dedupList (schemaMedia.documentUrls ++ pageDocumentUrls ++
    nativeMedia.documentUrls ++ embedMedia.documentUrls)
  let imageSet :=
    if imageSet.length = 0 && videoSet.length = 0 && documentSet.length = 0 then
      (extractOgImageFallback env doc).foldl setAdd imageSet
    else imageSet
  (imageSet, videoSet, documentSet)

/-- `scrapeOnce(postUrl)`. -/
def scrapeOnce (env : JsEnv) (henv : HtmlEnv) (postUrl : String) :
    Except ScrapeError PostResult :=
  match (fetchWithRedirectGuard env LINKEDIN_ALLOWED_HOSTS "" 2 postUrl).1 with
  | .success response =>
    if response.status = 401 || response.status = 403 || response.status = 999 then
      .error .privateOrProtected
    else if !response.respOk then .error (.scrapeFailed response.status)
    else
      let doc := henv.parseHtml response.body
      let canonicalUrl := extractCanonicalUrl env doc postUrl
      let preferredReferer := extractPostReferer env canonicalUrl
      let primarySchema := selectPrimarySchemaPost env doc.schemaObjects canonicalUrl
      if hasAuthWall doc then .error .privateOrProtected
      else
        let schemaText := extractTextFromSchema primarySchema
        let text := if schemaText ≠ "" then schemaText else extractPostText doc
        let sets := scrapeMediaSets env henv doc primarySchema preferredReferer
        if text = "" then .error .textNotFound
        else
          .ok { text := text,
                imageUrls := sets.1.take MAX_MEDIA_COUNT,
                videoUrls := sets.2.1.take MAX_MEDIA_COUNT,
                documentUrls := sets.2.2.take MAX_MEDIA_COUNT,
                preferredReferer := preferredReferer }
  | o => .error (.fetchFailure o)

/-! ## Media classification and download -/

/-- The media kinds `inferMediaType` can assign. -/
inductive MediaType where
  | image
  | video
  | document
  deriving DecidableEq, Repr

/-- The string values the source uses for the kinds. -/
def MediaType.toStr : MediaType → String
  | .image => "image"
  | .video => "video"
  | .document => "document"

/-- Character class `[a-z0-9]` (with `/i`) of the extension regex. -/
def isExtChar (c : Char) : Bool :=
  ('a' ≤ c && c ≤ 'z') || ('A' ≤ c && c ≤ 'Z') || ('0' ≤ c && c ≤ '9')

/-- The characters after the last `.` of the list, `none` if no dot. -/
def lastDotTail (l : List Char) : Option (List Char) :=
  let revTail := l.reverse.takeWhile (fun c => c ≠ '.')
  if revTail.length = l.length then none else some revTail.reverse

/-- `extensionFromUrl(urlValue)`: `/\.([a-z0-9]{2,5})$/i` on the pathname. -/
def extensionFromUrl (env : JsEnv) (urlValue : String) : Option String :=
  match env.parse urlValue with
  | none => none
  | some parsed =>
    match lastDotTail parsed.pathname.data with
    | none => none
    | some ext =>
      if 2 ≤ ext.length && ext.length ≤ 5 && ext.all isExtChar then
        some ⟨ext.map Char.toLower⟩
      else none

/-- `inferMediaType(requestedType, mimeType, sourceUrl)`. -/
def inferMediaType (env : JsEnv) (requestedType mimeType sourceUrl : String) :
    Option MediaType :=
  let normalizedMime := jsToLower mimeType
  let pathname := urlPathLower env sourceUrl
  if leadsWithStr "text/html" normalizedMime then none
  else if leadsWithStr "image/" normalizedMime then some .image
  else if leadsWithStr "video/" normalizedMime then some .video
  else if normalizedMime = "application/pdf" then some .document
  else if hasSub pathname "/dms/document/" || trailsWithStr ".pdf" pathname then
    some .document
  else if hasSub pathname "/dms/video/" || hasSub pathname "/dms/videoplayback/" ||
      hasSub pathname "/playlist/vid/" ||
      (trailsWithStr ".mp4" pathname || trailsWithStr ".mov" pathname ||
       trailsWithStr ".webm" pathname || trailsWithStr ".mpeg" pathname) then
    some .video
  else if hasSub pathname "/dms/image/" then some .image
  else if (normalizedMime = "" || normalizedMime = "application/octet-stream") &&
      (requestedType = "image" || requestedType = "video" ||
       requestedType = "document") then
    if requestedType = "image" then some .image
    else if requestedType = "video" then some .video
    else some .document
  else none

/-- `mediaFilename(index, mediaType, mimeType, sourceUrl)`. -/
def mediaFilename (env : JsEnv) (index : Nat) (mediaType : MediaType)
    (mimeType sourceUrl : String) : String :=
  let mime := jsToLower (trimStr (firstSplitSemicolon mimeType))
  let ext :=
    match MIME_TO_EXTENSION.find? (fun p => p.1 = mime) with
    | some p => p.2
    | none => (extensionFromUrl env sourceUrl).getD "jpg"
  "linkedin-" ++ mediaType.toStr ++ "-" ++ toString (index + 1) ++ "." ++ ext

/-- A caller-supplied media candidate (`{url, type, referer?}`; `""` and
`none` model absent fields). -/
structure MediaEntry where
  url : String := ""
  type : String := ""
  referer : Option String := none

/-- A deduplicated, validated download entry. -/
structure DedupedEntry where
  url : String
  requestedType : String
  referer : Option String
  deriving DecidableEq, Repr

/-- `DownloadedMedia` (the buffer modelled by the body string). -/
structure DownloadedMedia where
  url : String
  body : String
  mediaType : String
  mimeType : String
  filename : String
  deriving DecidableEq, Repr

/-- JS `a || b` on optional strings (`""` is falsy). -/
def optOrStr : Option String → Option String → Option String
  | some s, b => if s = "" then b else some s
  | none, b => b

/-- One entry's processing in the dedup/validation loop at the top of
`downloadLinkedInMedia` (accumulator: seen URL set, accepted entries). -/
def dedupEntriesStep (env : JsEnv) (preferredReferer : Option String)
    (acc : List String × List DedupedEntry) (entry : MediaEntry) :
    List String × List DedupedEntry :=
  let url := normalizeWhitespace entry.url
  if url = "" || acc.1.contains url || !isAllowedLinkedInMediaUrl env url then acc
  else
    (acc.1 ++ [url],
     acc.2 ++ [{ url := url,
                 requestedType := if entry.type = "" then "image" else entry.type,
                 referer := normalizeReferer env (optOrStr entry.referer preferredReferer) }])

/-- The dedup/validation loop at the top of `downloadLinkedInMedia`. -/
def dedupMediaEntries (env : JsEnv) (entries : List MediaEntry)
    (preferredReferer : Option String) : List DedupedEntry :=
  (entries.foldl (dedupEntriesStep env preferredReferer) ([], [])).2

/-- The referer loop of one media download.  Outer `none`: a guard
exception aborted the item; `some none`: the loop finished without
selecting a response; `some (some r)`: `r` selected (ok, or a non-401/403
status accepted as final). -/
def refererLoop (env : JsEnv) (url : String) : List String → Option (Option Resp)
  | [] => some none
  | referer :: rest =>
    match (fetchWithRedirectGuard env (.pred isAllowedLinkedInMediaHost) referer 2 url).1 with
    | .success candidate =>
      if candidate.respOk then some (some candidate)
      else if candidate.status ≠ 401 && candidate.status ≠ 403 then some (some candidate)
      else refererLoop env url rest
    | _ => none

/-- One entry's download task (`none` = the item is dropped after a logged
failure). -/
def downloadOne (env : JsEnv) (index : Nat) (entry : DedupedEntry) :
    Option DownloadedMedia :=
  let refererCandidates := buildRefererCandidates env entry.referer
  match refererLoop env entry.url refererCandidates with
  | none => none
  | some none => none
  | some (some response) =>
    if !response.respOk then none
    else
      let contentTypeHeader := jsToLower response.contentType
      let mimeType := trimStr (firstSplitSemicolon contentTypeHeader)
      let buffer := response.body
      if buffer.length = 0 then none
      else
        match inferMediaType env entry.requestedType mimeType entry.url with
        | none => none
        | some mediaType =>
          some { url := entry.url, body := buffer, mediaType := mediaType.toStr,
                 mimeType := mimeType,
                 filename := mediaFilename env index mediaType mimeType entry.url }

/-- `downloadLinkedInMedia(mediaEntries, options)` (downloads
sequentialised; `Promise.all` preserves array order, so the result order
is the entry order either way). -/
def downloadLinkedInMedia (env : JsEnv) (entries : List MediaEntry)
    (preferredReferer : Option String) : List DownloadedMedia :=
  let deduped := dedupMediaEntries env entries preferredReferer
  if deduped.isEmpty then []
  else
    let capped := deduped.take MAX_DOWNLOAD_COUNT
    capped.enum.filterMap (fun p => downloadOne env p.1 p.2)

/-! ## String lemmas -/

theorem leadsWith_iff (p : List Char) : ∀ s, leadsWith p s = true ↔ ∃ t, s = p ++ t := by
  induction p with
  | nil =>
    intro s
    simp [leadsWith]
  | cons a ps ih =>
    intro s
    cases s with
    | nil =>
      simp [leadsWith]
    | cons c cs =>
      simp only [leadsWith, Bool.and_eq_true, decide_eq_true_eq, ih cs]
      constructor
      · rintro ⟨rfl, t, rfl⟩
        exact ⟨t, rfl⟩
      · rintro ⟨t, h⟩
        cases h
        exact ⟨rfl, t, rfl⟩

theorem leadsWith_append (p s u : List Char) (h : leadsWith p s = true) :
    leadsWith p (s ++ u) = true := by
  obtain ⟨t, rfl⟩ := (leadsWith_iff p s).mp h
  exact (leadsWith_iff p _).mpr ⟨t ++ u, by simp⟩

theorem hasSubList_nil_pat (s : List Char) : hasSubList [] s = true := by
  cases s <;> simp [hasSubList, leadsWith]

theorem hasSubList_append_right (pat s u : List Char) (h : hasSubList pat s = true) :
    hasSubList pat (s ++ u) = true := by
  induction s with
  | nil =>
    simp only [hasSubList] at h
    have : pat = [] := by
      obtain ⟨t, ht⟩ := (leadsWith_iff pat []).mp h
      cases pat with
      | nil => rfl
      | cons a as => simp at ht
    subst this
    simpa using hasSubList_nil_pat u
  | cons c cs ih =>
    simp only [hasSubList, Bool.or_eq_true] at h ⊢
    rcases h with h | h
    · exact Or.inl (leadsWith_append pat (c :: cs) u h)
    · exact Or.inr (ih h)

theorem hasSubList_append_left (pat s u : List Char) (h : hasSubList pat u = true) :
    hasSubList pat (s ++ u) = true := by
  induction s with
  | nil => simpa using h
  | cons c cs ih =>
    simp only [hasSubList, Bool.or_eq_true]
    exact Or.inr ih

theorem hasSub_append_right (s u pat : String) (h : hasSub s pat = true) :
    hasSub (s ++ u) pat = true := by
  simp only [hasSub, String.data_append] at *
  exact hasSubList_append_right _ _ _ h

theorem hasSub_append_left (s u pat : String) (h : hasSub u pat = true) :
    hasSub (s ++ u) pat = true := by
  simp only [hasSub, String.data_append] at *
  exact hasSubList_append_left _ _ _ h

theorem trailsWithStr_iff (pat s : String) :
    trailsWithStr pat s = true ↔ ∃ pre, s.data = pre ++ pat.data := by
  simp only [trailsWithStr, leadsWith_iff]
  constructor
  · rintro ⟨t, ht⟩
    refine ⟨t.reverse, ?_⟩
    have := congrArg List.reverse ht
    simpa using this
  · rintro ⟨pre, hpre⟩
    exact ⟨pre.reverse, by simp [hpre]⟩

theorem prefixes_comparable {p q : List Char} : ∀ {s : List Char},
    leadsWith p s = true → leadsWith q s = true →
    leadsWith p q = true ∨ leadsWith q p = true := by
  intro s
  induction s generalizing p q with
  | nil =>
    intro hp hq
    obtain ⟨t, ht⟩ := (leadsWith_iff p []).mp hp
    cases p with
    | nil => exact Or.inl (by cases q <;> simp [leadsWith])
    | cons a as => simp at ht
  | cons c cs ih =>
    intro hp hq
    cases p with
    | nil => exact Or.inl (by cases q <;> simp [leadsWith])
    | cons a as =>
      cases q with
      | nil => exact Or.inr (by simp [leadsWith])
      | cons b bs =>
        simp only [leadsWith, Bool.and_eq_true, decide_eq_true_eq] at hp hq
        obtain ⟨rfl, hp⟩ := hp
        obtain ⟨rfl, hq⟩ := hq
        rcases ih hp hq with h | h
        · exact Or.inl (by simp [leadsWith, h])
        · exact Or.inr (by simp [leadsWith, h])

/-! ## Claim C2 -/

/-- Characterisation of the media-host regex test. -/
theorem mediaHostRegexTest_iff (s : String) :
    mediaHostRegexTest s = true ↔
      ∃ pre : List Char, s.data = pre ++ ".licdn.com".data ∧
        pre ≠ [] ∧ pre.all isMediaHostChar = true := by
  simp only [mediaHostRegexTest, Bool.and_eq_true]
  constructor
  · rintro ⟨htail, hpre⟩
    obtain ⟨pre, hdecomp⟩ := (trailsWithStr_iff _ _).mp htail
    refine ⟨pre, hdecomp, ?_, ?_⟩
    · have hlen : s.data.length - ".licdn.com".length = pre.length := by
        rw [hdecomp]
        simp [String.length]
      rw [hlen, hdecomp, List.take_left] at hpre
      · simpa using hpre.1
    · have hlen : s.data.length - ".licdn.com".length = pre.length := by
        rw [hdecomp]
        simp [String.length]
      rw [hlen, hdecomp, List.take_left] at hpre
      exact hpre.2
  · rintro ⟨pre, hdecomp, hne, hall⟩
    have htail : trailsWithStr ".licdn.com" s = true :=
      (trailsWithStr_iff _ _).mpr ⟨pre, hdecomp⟩
    refine ⟨htail, ?_⟩
    have hlen : s.data.length - ".licdn.com".length = pre.length := by
      rw [hdecomp]
      simp [String.length]
    rw [hlen, hdecomp, List.take_left]
    simpa [hne] using hall

/-- C2: `isAllowedLinkedInMediaHost` accepts a hostname exactly when its
lowercasing decomposes as a non-empty run of letters/digits/hyphens
followed by the literal suffix `.licdn.com`; in particular the
look-alike host `notcdn.example.com.attacker.net` (suffix not at the
end) and the multi-label host `a.b.licdn.com` are rejected, while a
genuine single-label CDN host is accepted. -/
theorem C2_mediaHost_suffix_and_pattern :
    (∀ hostname : String,
      isAllowedLinkedInMediaHost hostname = true ↔
        ∃ pre : List Char, (jsToLower hostname).data = pre ++ ".licdn.com".data ∧
          pre ≠ [] ∧ pre.all isMediaHostChar = true) ∧
    isAllowedLinkedInMediaHost "notcdn.example.com.attacker.net" = false ∧
    isAllowedLinkedInMediaHost "a.b.licdn.com" = false ∧
    isAllowedLinkedInMediaHost "media.licdn.com" = true := by
  refine ⟨?_, by decide, by decide, by decide⟩
  intro hostname
  simp only [isAllowedLinkedInMediaHost]
  rw [← mediaHostRegexTest_iff]
  constructor
  · intro h
    by_cases htail : trailsWithStr ".licdn.com" (jsToLower hostname) = true
    · simpa [htail] using h
    · simp only [Bool.not_eq_true] at htail
      simp [htail] at h
  · intro h
    have htail : trailsWithStr ".licdn.com" (jsToLower hostname) = true := by
      simp only [mediaHostRegexTest, Bool.and_eq_true] at h
      exact h.1
    simpa [htail] using h

/-- Witness for C2: the characterisation applied to a concrete accepted
host. -/
theorem C2_witness :
    ∃ pre : List Char, (jsToLower "media.licdn.com").data = pre ++ ".licdn.com".data ∧
      pre ≠ [] ∧ pre.all isMediaHostChar = true :=
  (C2_mediaHost_suffix_and_pattern.1 "media.licdn.com").mp (by decide)

/-! ## Concrete test environment for witnesses -/

/-- A small concrete URL parser for witness environments: handles
`https://host/path` and `http://host/path` shapes (no userinfo, port,
query or fragment — the witness URLs stay inside this fragment, on which
the parser agrees with the WHATWG one). -/
def testParse (s : String) : Option Url :=
  if leadsWithStr "https://" s then
    let rest := s.data.drop 8
    let host := rest.takeWhile (fun c => c ≠ '/')
    let path := rest.drop host.length
    some { protocol := "https:", hostname := ⟨host⟩,
           pathname := if path.isEmpty then "/" else ⟨path⟩ }
  else if leadsWithStr "http://" s then
    let rest := s.data.drop 7
    let host := rest.takeWhile (fun c => c ≠ '/')
    let path := rest.drop host.length
    some { protocol := "http:", hostname := ⟨host⟩,
           pathname := if path.isEmpty then "/" else ⟨path⟩ }
  else none

/-- A base witness environment (responses are overridden per witness). -/
def testEnv : JsEnv :=
  { parse := testParse,
    resolveRel := fun loc _ => testParse loc,
    resolveBase := fun s => testParse s,
    send := fun _ _ => .ok {} }

/-! ## Claim C3 -/

/-- C3: `isValidLinkedInPostUrl` returns `true` exactly when the input
parses, its scheme is `https`, its host is exactly the allow-listed
LinkedIn host (case-insensitively), and its path starts with one of the
two fixed post-path prefixes; in all other cases (unparseable input
included) it returns `false`. -/
theorem C3_isValidPostUrl (env : JsEnv) (urlValue : String) :
    isValidLinkedInPostUrl env urlValue = true ↔
      ∃ u : Url, env.parse urlValue = some u ∧ u.protocol = "https:" ∧
        jsToLower u.hostname = LINKEDIN_HOST ∧
        (leadsWithStr "/posts/" u.pathname = true ∨
         leadsWithStr "/feed/update/" u.pathname = true) := by
  unfold isValidLinkedInPostUrl
  cases h : env.parse urlValue with
  | none => simp
  | some u =>
    simp only []
    constructor
    · intro hv
      split_ifs at hv with h1 h2
      simp only [LINKEDIN_POST_PATH_STARTS, List.any_cons, List.any_nil,
        Bool.or_false, Bool.or_eq_true] at hv
      exact ⟨u, rfl, not_not.mp h1, not_not.mp h2, hv⟩
    · rintro ⟨u', hu', hp, hh, hany⟩
      injection hu' with hu''
      subst hu''
      rw [if_neg (not_not_intro hp), if_neg (not_not_intro hh)]
      rcases hany with hany | hany <;>
        simp [LINKEDIN_POST_PATH_STARTS, hany]

/-- Witness for C3: a concrete accepted post URL. -/
theorem C3_witness :
    ∃ u : Url, testEnv.parse "https://www.linkedin.com/posts/alice_update" = some u ∧
      u.protocol = "https:" ∧ jsToLower u.hostname = LINKEDIN_HOST ∧
      (leadsWithStr "/posts/" u.pathname = true ∨
       leadsWithStr "/feed/update/" u.pathname = true) :=
  (C3_isValidPostUrl testEnv "https://www.linkedin.com/posts/alice_update").mp (by decide)

/-! ## Claim C5 -/

theorem leadsWith_excl {p q s : List Char} (hp : leadsWith p s = true)
    (hpq : leadsWith p q = false) (hqp : leadsWith q p = false) :
    leadsWith q s = false := by
  by_contra hq
  rw [Bool.not_eq_false] at hq
  rcases prefixes_comparable hq hp with h | h
  · rw [h] at hqp
    exact Bool.false_ne_true hqp.symm
  · rw [h] at hpq
    exact Bool.false_ne_true hpq.symm

theorem leadsWithStr_excl {p q s : String} (hp : leadsWithStr p s = true)
    (hpq : leadsWithStr p q = false) (hqp : leadsWithStr q p = false) :
    leadsWithStr q s = false := by
  simp only [leadsWithStr] at *
  exact leadsWith_excl (p := p.data) (q := q.data) hp
    (by simpa using hpq) (by simpa using hqp)

/-- C5: `inferMediaType` derives the media kind from the response
`Content-Type` first — `text/html` yields no kind (the item is rejected),
`image/*`, `video/*` and `application/pdf` map directly regardless of the
URL path or the caller's hint — and the caller's `requestedType` hint can
only influence the result when the MIME type is empty or the generic
binary type. -/
theorem C5_inferMediaType_mime_first :
    (∀ (env : JsEnv) (req mime url : String),
      leadsWithStr "text/html" (jsToLower mime) = true →
        inferMediaType env req mime url = none) ∧
    (∀ (env : JsEnv) (req mime url : String),
      leadsWithStr "image/" (jsToLower mime) = true →
        inferMediaType env req mime url = some .image) ∧
    (∀ (env : JsEnv) (req mime url : String),
      leadsWithStr "video/" (jsToLower mime) = true →
        inferMediaType env req mime url = some .video) ∧
    (∀ (env : JsEnv) (req mime url : String),
      jsToLower mime = "application/pdf" →
        inferMediaType env req mime url = some .document) ∧
    (∀ (env : JsEnv) (req req' mime url : String),
      jsToLower mime ≠ "" → jsToLower mime ≠ "application/octet-stream" →
        inferMediaType env req mime url = inferMediaType env req' mime url) := by
  refine ⟨?_, ?_, ?_, ?_, ?_⟩
  · intro env req mime url h
    simp [inferMediaType, h]
  · intro env req mime url h
    have h1 : leadsWithStr "text/html" (jsToLower mime) = false :=
      leadsWithStr_excl h (by decide) (by decide)
    simp [inferMediaType, h, h1]
  · intro env req mime url h
    have h1 : leadsWithStr "text/html" (jsToLower mime) = false :=
      leadsWithStr_excl h (by decide) (by decide)
    have h2 : leadsWithStr "image/" (jsToLower mime) = false :=
      leadsWithStr_excl h (by decide) (by decide)
    simp [inferMediaType, h, h1, h2]
  · intro env req mime url h
    have e1 : leadsWithStr "text/html" "application/pdf" = false := by decide
    have e2 : leadsWithStr "image/" "application/pdf" = false := by decide
    have e3 : leadsWithStr "video/" "application/pdf" = false := by decide
    simp [inferMediaType, h, e1, e2, e3]
  · intro env req req' mime url h1 h2
    simp [inferMediaType, h1, h2]

/-- Witness for C5, which is also the claim's concrete case: a URL whose
path suggests an image but whose response `Content-Type` is `video/mp4`
is classified as video. -/
theorem C5_witness :
    inferMediaType testEnv "image" "video/mp4"
      "https://media.licdn.com/dms/image/pic" = some .video :=
  C5_inferMediaType_mime_first.2.2.1 testEnv "image" "video/mp4"
    "https://media.licdn.com/dms/image/pic" (by decide)

/-! ## Claim C9 -/

/-- The closed-form event trace of a `withRetries` run in which every
attempt fails with `f attempt` and the observer returns normally. -/
def fullRetryTrace {E : Type} (f : Nat → E) (baseDelayMs : Nat) :
    Nat → Nat → List (RetryEvent E)
  | 0, attempt => [.attempt attempt]
  | remaining + 1, attempt =>
    .attempt attempt :: .observerCall (f attempt) (attempt + 1) ::
      .sleep (baseDelayMs * (attempt + 1)) ::
        fullRetryTrace f baseDelayMs remaining (attempt + 1)

theorem retryGo_count_le {E A : Type} (task : Nat → Except E A)
    (onRetry : E → Nat → Option E) (base : Nat) :
    ∀ remaining attempt,
      countAttempts (retryGo task onRetry base remaining attempt).2 ≤ remaining + 1 := by
  intro remaining
  induction remaining with
  | zero =>
    intro attempt
    simp [retryGo, countAttempts]
  | succ n ih =>
    intro attempt
    unfold retryGo
    cases ht : task attempt with
    | ok a => simp [countAttempts]
    | error e =>
      dsimp only
      cases ho : onRetry e (attempt + 1) with
      | some e' =>
        simp [countAttempts]
      | none =>
        have h2 := ih (attempt + 1)
        simp only [countAttempts, List.filter] at h2 ⊢
        simpa using Nat.succ_le_succ h2

theorem retryGo_error_propagates {E A : Type} (task : Nat → Except E A)
    (onRetry : E → Nat → Option E) (base : Nat)
    (hobs : ∀ e n, onRetry e n = none) :
    ∀ remaining attempt e, (retryGo task onRetry base remaining attempt).1 = .error e →
      task (attempt + remaining) = .error e := by
  intro remaining
  induction remaining with
  | zero =>
    intro attempt e h
    simpa [retryGo] using h
  | succ n ih =>
    intro attempt e h
    unfold retryGo at h
    cases ht : task attempt with
    | ok a =>
      rw [ht] at h
      simp at h
    | error e0 =>
      rw [ht] at h
      dsimp only at h
      rw [hobs e0 (attempt + 1)] at h
      dsimp only at h
      have h3 := ih (attempt + 1) e h
      rw [show attempt + (n + 1) = (attempt + 1) + n by omega]
      exact h3

theorem retryGo_allfail {E A : Type} (task : Nat → Except E A)
    (onRetry : E → Nat → Option E) (base : Nat) (f : Nat → E)
    (hobs : ∀ e n, onRetry e n = none) (hf : ∀ n, task n = .error (f n)) :
    ∀ remaining attempt, retryGo task onRetry base remaining attempt =
      ((Except.error (f (attempt + remaining)) : Except E A),
        fullRetryTrace f base remaining attempt) := by
  intro remaining
  induction remaining with
  | zero =>
    intro attempt
    simp [retryGo, hf, fullRetryTrace]
  | succ n ih =>
    intro attempt
    unfold retryGo
    rw [hf attempt]
    dsimp only
    rw [hobs]
    dsimp only
    rw [ih (attempt + 1)]
    simp only [fullRetryTrace]
    rw [show attempt + (n + 1) = (attempt + 1) + n by omega]

/-- A task that fails on every attempt (error code 5). -/
def alwaysFailTask : Nat → Except Nat Unit := fun _ => .error 5

/-- An observer that throws (error code 77) on every invocation. -/
def throwingObserver : Nat → Nat → Option Nat := fun _ _ => some 77

/-- An observer that returns normally on every invocation. -/
def silentObserver : Nat → Nat → Option Nat := fun _ _ => none

/-- Counterexample for C9: the observer is not isolated from control
flow.  With `retries = 2` and a task failing with error 5 on every
attempt, a well-behaved observer yields 3 task executions and the final
task error, but an observer that throws (error 77) stops the run after a
single execution and its own error propagates — so a misbehaving
observer does change whether and how retries proceed. -/
theorem C9_counterexample :
    (withRetries alwaysFailTask throwingObserver 2 400).1 = .error 77 ∧
    countAttempts (withRetries alwaysFailTask throwingObserver 2 400).2 = 1 ∧
    (withRetries alwaysFailTask silentObserver 2 400).1 = .error 5 ∧
    countAttempts (withRetries alwaysFailTask silentObserver 2 400).2 = 3 :=
  ⟨rfl, rfl, rfl, rfl⟩

/-- C9 (amended): provided the observer returns normally, `withRetries`
runs the task at most `retries + 1` times, propagates the final
attempt's error, and — when every attempt fails — produces exactly the
trace that executes attempt `n`, then calls the observer with the
failure and attempt number `n + 1`, then sleeps `baseDelayMs * (n + 1)`,
before each retry, ending with the final attempt.  (The observer's
return value never influences the result; only a thrown observer error
does, which is what the amendment adds to the original claim.) -/
theorem C9_retry_amended {E A : Type} (task : Nat → Except E A)
    (onRetry : E → Nat → Option E) (retries baseDelayMs : Nat)
    (hobs : ∀ e n, onRetry e n = none) :
    countAttempts (withRetries task onRetry retries baseDelayMs).2 ≤ retries + 1 ∧
    (∀ e, (withRetries task onRetry retries baseDelayMs).1 = .error e →
      task retries = .error e) ∧
    (∀ f : Nat → E, (∀ n, task n = .error (f n)) →
      withRetries task onRetry retries baseDelayMs =
        (.error (f retries), fullRetryTrace f baseDelayMs retries 0)) := by
  refine ⟨retryGo_count_le task onRetry baseDelayMs retries 0, ?_, ?_⟩
  · intro e h
    have := retryGo_error_propagates task onRetry baseDelayMs hobs retries 0 e h
    simpa using this
  · intro f hf
    have := retryGo_allfail task onRetry baseDelayMs f hobs hf retries 0
    simpa using this

/-- Witness for C9 (amended) at a concrete task/observer/configuration. -/
theorem C9_witness :
    countAttempts (withRetries alwaysFailTask silentObserver 2 400).2 ≤ 3 ∧
    withRetries alwaysFailTask silentObserver 2 400 =
      (.error 5, fullRetryTrace (fun _ => 5) 400 2 0) := by
  have h := C9_retry_amended alwaysFailTask silentObserver 2 400 (fun _ _ => rfl)
  exact ⟨h.1, h.2.2 (fun _ => 5) (fun _ => rfl)⟩

/-! ## Claim C1 -/

theorem fetchGuardGo_trace_safe (env : JsEnv) (ah : AllowedHosts) (ref : String) :
    ∀ fuel url u, u ∈ (fetchGuardGo env ah ref fuel url).2 →
      u.protocol = "https:" ∧ isHostnameAllowed u.hostname ah = true := by
  intro fuel
  induction fuel with
  | zero =>
    intro url u hu
    simp [fetchGuardGo] at hu
  | succ n ih =>
    intro url u hu
    unfold fetchGuardGo at hu
    cases hp : env.parse url with
    | none =>
      rw [hp] at hu
      simp at hu
    | some parsed =>
      rw [hp] at hu
      dsimp only at hu
      split at hu
      · simp at hu
      · split at hu
        · simp at hu
        · rename_i hproto hhost
          rw [not_not] at hproto
          simp at hhost
          cases hsend : env.send parsed ref with
          | error msg =>
            rw [hsend] at hu
            simp at hu
            exact hu ▸ ⟨hproto, hhost⟩
          | ok response =>
            rw [hsend] at hu
            dsimp only at hu
            split at hu
            · simp at hu
              exact hu ▸ ⟨hproto, hhost⟩
            · cases hloc : response.location with
              | none =>
                rw [hloc] at hu
                simp at hu
                exact hu ▸ ⟨hproto, hhost⟩
              | some location =>
                rw [hloc] at hu
                dsimp only at hu
                cases hres : env.resolveRel location parsed with
                | none =>
                  rw [hres] at hu
                  simp at hu
                  exact hu ▸ ⟨hproto, hhost⟩
                | some nextUrl =>
                  rw [hres] at hu
                  dsimp only at hu
                  split at hu
                  · simp at hu
                    exact hu ▸ ⟨hproto, hhost⟩
                  · simp only [List.mem_cons] at hu
                    rcases hu with rfl | hu
                    · exact ⟨hproto, hhost⟩
                    · exact ih (urlToStr nextUrl) u hu

theorem fetchGuardGo_all_redirect (env : JsEnv) (ah : AllowedHosts) (ref : String)
    (hparse : ∀ s, ∃ u, env.parse s = some u ∧ u.protocol = "https:" ∧
      isHostnameAllowed u.hostname ah = true)
    (hsend : ∀ u, ∃ resp, env.send u ref = .ok resp ∧
      REDIRECT_STATUSES.contains resp.status = true ∧ ∃ loc, resp.location = some loc)
    (hres : ∀ loc base, ∃ v, env.resolveRel loc base = some v ∧
      isHostnameAllowed v.hostname ah = true) :
    ∀ fuel url, (fetchGuardGo env ah ref fuel url).1 = .tooManyRedirects ∧
      (fetchGuardGo env ah ref fuel url).2.length = fuel := by
  intro fuel
  induction fuel with
  | zero =>
    intro url
    simp [fetchGuardGo]
  | succ n ih =>
    intro url
    obtain ⟨u, hpu, hproto, hall⟩ := hparse url
    obtain ⟨resp, hsu, hred, loc, hloc⟩ := hsend u
    obtain ⟨v, hrv, hva⟩ := hres loc u
    unfold fetchGuardGo
    rw [hpu]
    dsimp only
    rw [if_neg (not_not_intro hproto), if_neg (by simp [hall]), hsu]
    dsimp only
    rw [if_neg (by simpa using hred), hloc]
    dsimp only
    rw [hrv]
    dsimp only
    rw [if_neg (by simp [hva])]
    dsimp only
    exact ⟨(ih (urlToStr v)).1, by simp [(ih (urlToStr v)).2]⟩

theorem fetchGuard_blocked_entry (env : JsEnv) (ah : AllowedHosts) (ref : String)
    (maxR : Nat) (url : String) (u : Url)
    (hp : env.parse url = some u) (hproto : u.protocol = "https:")
    (hblocked : isHostnameAllowed u.hostname ah = false) :
    fetchGuardGo env ah ref (maxR + 1) url = (.blockedHost u.hostname, []) := by
  unfold fetchGuardGo
  rw [hp]
  dsimp only
  rw [if_neg (not_not_intro hproto), if_pos (by simp [hblocked])]

theorem fetchGuard_blocked_redirect_step (env : JsEnv) (ah : AllowedHosts) (ref : String)
    (fuel : Nat) (url : String) (u v : Url) (resp : Resp) (loc : String)
    (hp : env.parse url = some u) (hproto : u.protocol = "https:")
    (hall : isHostnameAllowed u.hostname ah = true)
    (hsend : env.send u ref = .ok resp)
    (hred : REDIRECT_STATUSES.contains resp.status = true)
    (hloc : resp.location = some loc) (hres : env.resolveRel loc u = some v)
    (hblocked : isHostnameAllowed v.hostname ah = false) :
    fetchGuardGo env ah ref (fuel + 1) url = (.blockedRedirect v.hostname, [u]) := by
  unfold fetchGuardGo
  rw [hp]
  dsimp only
  rw [if_neg (not_not_intro hproto), if_neg (by simp [hall]), hsend]
  dsimp only
  rw [if_neg (by simpa using hred), hloc]
  dsimp only
  rw [hres]
  dsimp only
  rw [if_pos (by simp [hblocked])]

/-- C1: the guarded fetcher (1) only ever hands the network URLs that are
`https` and pass the `allowedHosts` predicate — no request is issued to a
non-https or disallowed-host URL; (2) when every hop parses to an
allowed https URL and every response is a redirect with a resolvable,
host-allowed target, it rejects with `TooManyRedirects` after issuing
exactly `maxRedirects + 1` requests (a chain of `maxRedirects + 1`
redirect hops); (3) an initial URL with a disallowed hostname is
rejected with a blocked-host failure before any request; (4) at any
point of the walk — the final hop included (`fuel = 0` gives the last
loop iteration) — a redirect whose resolved target's hostname fails the
predicate is rejected with a blocked-redirect failure. -/
theorem C1_redirect_guard :
    (∀ (env : JsEnv) (ah : AllowedHosts) (ref : String) (maxRedirects : Nat)
       (url : String),
      ∀ u ∈ (fetchWithRedirectGuard env ah ref maxRedirects url).2,
        u.protocol = "https:" ∧ isHostnameAllowed u.hostname ah = true) ∧
    (∀ (env : JsEnv) (ah : AllowedHosts) (ref : String) (maxRedirects : Nat)
       (url : String),
      (∀ s, ∃ u, env.parse s = some u ∧ u.protocol = "https:" ∧
        isHostnameAllowed u.hostname ah = true) →
      (∀ u, ∃ resp, env.send u ref = .ok resp ∧
        REDIRECT_STATUSES.contains resp.status = true ∧ ∃ loc, resp.location = some loc) →
      (∀ loc base, ∃ v, env.resolveRel loc base = some v ∧
        isHostnameAllowed v.hostname ah = true) →
      (fetchWithRedirectGuard env ah ref maxRedirects url).1 = .tooManyRedirects ∧
      (fetchWithRedirectGuard env ah ref maxRedirects url).2.length = maxRedirects + 1) ∧
    (∀ (env : JsEnv) (ah : AllowedHosts) (ref : String) (maxRedirects : Nat)
       (url : String) (u : Url),
      env.parse url = some u → u.protocol = "https:" →
      isHostnameAllowed u.hostname ah = false →
      fetchWithRedirectGuard env ah ref maxRedirects url = (.blockedHost u.hostname, [])) ∧
    (∀ (env : JsEnv) (ah : AllowedHosts) (ref : String) (fuel : Nat)
       (url : String) (u v : Url) (resp : Resp) (loc : String),
      env.parse url = some u → u.protocol = "https:" →
      isHostnameAllowed u.hostname ah = true →
      env.send u ref = .ok resp → REDIRECT_STATUSES.contains resp.status = true →
      resp.location = some loc → env.resolveRel loc u = some v →
      isHostnameAllowed v.hostname ah = false →
      fetchGuardGo env ah ref (fuel + 1) url = (.blockedRedirect v.hostname, [u])) := by
  refine ⟨?_, ?_, ?_, ?_⟩
  · intro env ah ref maxRedirects url u hu
    exact fetchGuardGo_trace_safe env ah ref (maxRedirects + 1) url u hu
  · intro env ah ref maxRedirects url h1 h2 h3
    exact fetchGuardGo_all_redirect env ah ref h1 h2 h3 (maxRedirects + 1) url
  · intro env ah ref maxRedirects url u hp hproto hblocked
    exact fetchGuard_blocked_entry env ah ref maxRedirects url u hp hproto hblocked
  · intro env ah ref fuel url u v resp loc hp hproto hall hsend hred hloc hres hblocked
    exact fetchGuard_blocked_redirect_step env ah ref fuel url u v resp loc
      hp hproto hall hsend hred hloc hres hblocked

/-- An environment in which every URL parses to the LinkedIn host and
every response is a 302 redirect: exercises the redirect-budget path. -/
def redirEnv : JsEnv where
  parse s := some { protocol := "https:", hostname := "www.linkedin.com", pathname := s }
  resolveRel loc _ := some { protocol := "https:", hostname := "www.linkedin.com", pathname := loc }
  resolveBase _ := none
  send _ _ := .ok { status := 302, location := some "/next" }

/-- Witness for C1: a chain of `maxRedirects + 1 = 3` redirects is
rejected with `TooManyRedirects` after exactly 3 requests, and a
disallowed initial host is rejected with a blocked-host failure before
any request. -/
theorem C1_witness :
    ((fetchWithRedirectGuard redirEnv (.set ["www.linkedin.com"]) "" 2
        "https://www.linkedin.com/start").1 = .tooManyRedirects ∧
      (fetchWithRedirectGuard redirEnv (.set ["www.linkedin.com"]) "" 2
        "https://www.linkedin.com/start").2.length = 3) ∧
    fetchWithRedirectGuard testEnv (.set ["www.linkedin.com"]) "" 2
      "https://evil.example.com/x" =
        (.blockedHost "evil.example.com", []) := by
  have hallow : isHostnameAllowed "www.linkedin.com"
      (AllowedHosts.set ["www.linkedin.com"]) = true := by decide
  have hredir : REDIRECT_STATUSES.contains 302 = true := by decide
  constructor
  · exact C1_redirect_guard.2.1 redirEnv (.set ["www.linkedin.com"]) "" 2
      "https://www.linkedin.com/start"
      (fun s => ⟨{ protocol := "https:", hostname := "www.linkedin.com", pathname := s },
        rfl, rfl, hallow⟩)
      (fun u => ⟨{ status := 302, location := some "/next" }, rfl, hredir, "/next", rfl⟩)
      (fun loc base => ⟨{ protocol := "https:", hostname := "www.linkedin.com", pathname := loc },
        rfl, hallow⟩)
  · exact C1_redirect_guard.2.2.1 testEnv (.set ["www.linkedin.com"]) "" 2
      "https://evil.example.com/x"
      { protocol := "https:", hostname := "evil.example.com", pathname := "/x" }
      (by rfl) rfl (by decide)

/-! ## Claim C8 -/

/-- The sign-in phrases `hasAuthWall` scans for. -/
def AUTH_WALL_PHRASES : List String :=
  ["sign in", "log in", "join linkedin", "linkedin login"]

theorem hasAuthWall_of_phrase (doc : PageDoc)
    (h : ∃ p ∈ AUTH_WALL_PHRASES,
      hasSub (jsToLower (normalizeWhitespace (doc.selText "title"))) p = true ∨
      hasSub (jsToLower (normalizeWhitespace (doc.metaContent "og:title"))) p = true) :
    hasAuthWall doc = true := by
  obtain ⟨p, hp, hsub⟩ := h
  set t := jsToLower (normalizeWhitespace (doc.selText "title")) with ht
  set o := jsToLower (normalizeWhitespace (doc.metaContent "og:title")) with ho
  have hcomb : hasSub (t ++ " " ++ o) p = true := by
    rcases hsub with hsub | hsub
    · exact hasSub_append_right _ o p (hasSub_append_right t " " p hsub)
    · exact hasSub_append_left _ o p hsub
  simp only [AUTH_WALL_PHRASES, List.mem_cons, List.mem_singleton,
    List.not_mem_nil, or_false] at hp
  unfold hasAuthWall
  rw [← ht, ← ho]
  rcases hp with rfl | rfl | rfl | rfl <;> simp [hcomb]

/-- C8: a post-page response with status 401, 403 or 999 makes the
extraction fail with the `PrivateOrProtected` error; any other
non-success (non-2xx) status fails with the distinct
`ScrapeFailed` error carrying that status; and a 200 response whose page
title or Open-Graph title contains one of the sign-in/login/join phrases
(case-insensitive substring) also fails with `PrivateOrProtected`. -/
theorem C8_status_and_authwall (env : JsEnv) (henv : HtmlEnv) (postUrl : String)
    (resp : Resp)
    (hfetch : (fetchWithRedirectGuard env LINKEDIN_ALLOWED_HOSTS "" 2 postUrl).1 =
      .success resp) :
    (resp.status = 401 ∨ resp.status = 403 ∨ resp.status = 999 →
      scrapeOnce env henv postUrl = .error .privateOrProtected) ∧
    (resp.status ≠ 401 → resp.status ≠ 403 → resp.status ≠ 999 →
      resp.respOk = false →
      scrapeOnce env henv postUrl = .error (.scrapeFailed resp.status)) ∧
    (resp.status = 200 →
      (∃ p ∈ AUTH_WALL_PHRASES,
        hasSub (jsToLower (normalizeWhitespace
          ((henv.parseHtml resp.body).selText "title"))) p = true ∨
        hasSub (jsToLower (normalizeWhitespace
          ((henv.parseHtml resp.body).metaContent "og:title"))) p = true) →
      scrapeOnce env henv postUrl = .error .privateOrProtected) := by
  refine ⟨?_, ?_, ?_⟩
  · intro hst
    unfold scrapeOnce
    rw [hfetch]
    dsimp only
    rcases hst with h | h | h <;> simp [h]
  · intro h1 h2 h3 hok
    unfold scrapeOnce
    rw [hfetch]
    dsimp only
    rw [if_neg (by simp [h1, h2, h3]), if_pos (by simp [hok])]
  · intro h200 hph
    have hwall : hasAuthWall (henv.parseHtml resp.body) = true :=
      hasAuthWall_of_phrase _ hph
    unfold scrapeOnce
    rw [hfetch]
    dsimp only
    rw [if_neg (by simp [h200]), if_neg (by simp [Resp.respOk, h200])]
    simp [hwall]

/-- An environment whose post fetch yields a 401 response. -/
def env401 : JsEnv :=
  { testEnv with send := fun _ _ => .ok { status := 401 } }

/-- Witness for C8: a 401 response makes the scrape fail with the
private-or-protected error. -/
theorem C8_witness :
    scrapeOnce env401 {} "https://www.linkedin.com/posts/x" =
      .error .privateOrProtected :=
  (C8_status_and_authwall env401 {} "https://www.linkedin.com/posts/x"
    { status := 401 } (by rfl)).1 (Or.inl rfl)

/-! ## Claim C4 -/

/-- Spec-side formulation of the Open-Graph fallback of
`extractPostText`: the description if non-empty, else the title, subject
to the placeholder check on the chosen value. -/
def specOgFallback (doc : PageDoc) : String :=
  let ogDescription := normalizeWhitespace (doc.metaContent "og:description")
  let ogTitle := normalizeWhitespace (doc.metaContent "og:title")
  let fallback := if ogDescription ≠ "" then ogDescription else ogTitle
  if isLowValueFallbackText fallback then "" else fallback

/-- The ordered text candidates of `extractTextFromSchema`. -/
def schemaTextCandidates : Option SchemaPost → List String
  | none => []
  | some p =>
    [p.articleBody.getD "", p.description.getD "", p.text.getD "",
     p.headline.getD "", p.name.getD ""]

theorem extractTextFromSchema_eq (ps : Option SchemaPost) :
    extractTextFromSchema ps = firstGoodCandidate (schemaTextCandidates ps) := by
  cases ps with
  | none => simp [extractTextFromSchema, schemaTextCandidates, firstGoodCandidate]
  | some p => rfl

/-- `extractPostText` is: the first non-empty, non-placeholder selector
text over the commentary selector followed by the primary selectors, and
otherwise the Open-Graph fallback. -/
theorem extractPostText_eq (doc : PageDoc) :
    extractPostText doc =
      (match firstGoodSelText doc (MAIN_COMMENTARY_SELECTOR :: PRIMARY_TEXT_SELECTORS) with
       | some t => t
       | none => specOgFallback doc) := by
  simp only [extractPostText, firstGoodSelText, specOgFallback]
  split_ifs with hc <;> rfl

theorem firstGoodCandidate_all_low (cs : List String)
    (h : ∀ c ∈ cs, isLowValueFallbackText (normalizeWhitespace c) = true) :
    firstGoodCandidate cs = "" := by
  induction cs with
  | nil => rfl
  | cons c rest ih =>
    unfold firstGoodCandidate
    rw [if_neg (by simp [h c (List.mem_cons_self c rest)])]
    exact ih (fun x hx => h x (List.mem_cons_of_mem c hx))

theorem firstGoodSelText_all_low (doc : PageDoc) (sels : List String)
    (h : ∀ sel ∈ sels,
      isLowValueFallbackText (normalizeWhitespace (doc.selText sel)) = true) :
    firstGoodSelText doc sels = none := by
  induction sels with
  | nil => rfl
  | cons sel rest ih =>
    unfold firstGoodSelText
    rw [if_neg (by simp [h sel (List.mem_cons_self sel rest)])]
    exact ih (fun x hx => h x (List.mem_cons_of_mem sel hx))

theorem specOgFallback_all_low (doc : PageDoc)
    (hd : isLowValueFallbackText
      (normalizeWhitespace (doc.metaContent "og:description")) = true)
    (ht : isLowValueFallbackText
      (normalizeWhitespace (doc.metaContent "og:title")) = true) :
    specOgFallback doc = "" := by
  unfold specOgFallback
  dsimp only
  by_cases hne : normalizeWhitespace (doc.metaContent "og:description") ≠ ""
  · rw [if_pos hne, if_pos hd]
  · rw [if_neg hne, if_pos ht]

/-- C4: under a successful, non-blocked, non-auth-walled page fetch, the
extracted text is the structured-data (JSON-LD) text whenever that is
non-empty (`extractTextFromSchema` already keeps only non-placeholder
candidates); otherwise the DOM extraction `extractPostText`, which is the
first non-empty non-placeholder text over the ordered selector list and
then the Open-Graph description-then-title fallback; and when every
schema candidate, every selector text and both Open-Graph fields are
empty or placeholder-only, the extraction fails with `TextNotFound`. -/
theorem C4_text_preference (env : JsEnv) (henv : HtmlEnv) (postUrl : String)
    (resp : Resp)
    (hfetch : (fetchWithRedirectGuard env LINKEDIN_ALLOWED_HOSTS "" 2 postUrl).1 =
      .success resp)
    (h401 : resp.status ≠ 401) (h403 : resp.status ≠ 403) (h999 : resp.status ≠ 999)
    (hok : resp.respOk = true)
    (hwall : hasAuthWall (henv.parseHtml resp.body) = false) :
    (extractTextFromSchema (selectPrimarySchemaPost env
        (henv.parseHtml resp.body).schemaObjects
        (extractCanonicalUrl env (henv.parseHtml resp.body) postUrl)) ≠ "" →
      ∃ r, scrapeOnce env henv postUrl = .ok r ∧
        r.text = extractTextFromSchema (selectPrimarySchemaPost env
          (henv.parseHtml resp.body).schemaObjects
          (extractCanonicalUrl env (henv.parseHtml resp.body) postUrl))) ∧
    (extractTextFromSchema (selectPrimarySchemaPost env
        (henv.parseHtml resp.body).schemaObjects
        (extractCanonicalUrl env (henv.parseHtml resp.body) postUrl)) = "" →
      extractPostText (henv.parseHtml resp.body) ≠ "" →
      ∃ r, scrapeOnce env henv postUrl = .ok r ∧
        r.text = extractPostText (henv.parseHtml resp.body)) ∧
    (extractTextFromSchema (selectPrimarySchemaPost env
        (henv.parseHtml resp.body).schemaObjects
        (extractCanonicalUrl env (henv.parseHtml resp.body) postUrl)) = "" →
      extractPostText (henv.parseHtml resp.body) = "" →
      scrapeOnce env henv postUrl = .error .textNotFound) ∧
    (∀ doc : PageDoc, extractPostText doc =
      (match firstGoodSelText doc (MAIN_COMMENTARY_SELECTOR :: PRIMARY_TEXT_SELECTORS) with
       | some t => t
       | none => specOgFallback doc)) ∧
    ((∀ c ∈ schemaTextCandidates (selectPrimarySchemaPost env
        (henv.parseHtml resp.body).schemaObjects
        (extractCanonicalUrl env (henv.parseHtml resp.body) postUrl)),
        isLowValueFallbackText (normalizeWhitespace c) = true) →
     (∀ sel ∈ MAIN_COMMENTARY_SELECTOR :: PRIMARY_TEXT_SELECTORS,
        isLowValueFallbackText (normalizeWhitespace
          ((henv.parseHtml resp.body).selText sel)) = true) →
     isLowValueFallbackText (normalizeWhitespace
       ((henv.parseHtml resp.body).metaContent "og:description")) = true →
     isLowValueFallbackText (normalizeWhitespace
       ((henv.parseHtml resp.body).metaContent "og:title")) = true →
     scrapeOnce env henv postUrl = .error .textNotFound) := by
  have hcore : ∀ (hschema0 : extractTextFromSchema (selectPrimarySchemaPost env
      (henv.parseHtml resp.body).schemaObjects
      (extractCanonicalUrl env (henv.parseHtml resp.body) postUrl)) = "")
      (hdom0 : extractPostText (henv.parseHtml resp.body) = ""),
      scrapeOnce env henv postUrl = .error .textNotFound := by
    intro hschema0 hdom0
    unfold scrapeOnce
    rw [hfetch]
    dsimp only
    rw [if_neg (by simp [h401, h403, h999]), if_neg (by simp [hok]),
      if_neg (by simp [hwall]), if_neg (not_not_intro hschema0), if_pos hdom0]
  refine ⟨?_, ?_, hcore, extractPostText_eq, ?_⟩
  · intro hschema
    unfold scrapeOnce
    rw [hfetch]
    dsimp only
    rw [if_neg (by simp [h401, h403, h999]), if_neg (by simp [hok]),
      if_neg (by simp [hwall]), if_pos hschema, if_neg hschema]
    exact ⟨_, rfl, rfl⟩
  · intro hschema0 hdom
    unfold scrapeOnce
    rw [hfetch]
    dsimp only
    rw [if_neg (by simp [h401, h403, h999]), if_neg (by simp [hok]),
      if_neg (by simp [hwall]), if_neg (not_not_intro hschema0), if_neg hdom]
    exact ⟨_, rfl, rfl⟩
  · intro hsch hsel hogd hogt
    have hschema0 := (extractTextFromSchema_eq _).trans (firstGoodCandidate_all_low _ hsch)
    have hdom0 : extractPostText (henv.parseHtml resp.body) = "" := by
      rw [extractPostText_eq, firstGoodSelText_all_low _ _ hsel]
      exact specOgFallback_all_low _ hogd hogt
    exact hcore hschema0 hdom0

/-- An environment whose post fetch succeeds with a 200 response. -/
def envC4 : JsEnv :=
  { testEnv with send := fun _ _ => .ok { status := 200 } }

/-- A page whose JSON-LD carries the post body `Hello`. -/
def docC4 : PageDoc :=
  { schemaObjects := [{ types := ["SocialMediaPosting"], articleBody := some "Hello" }] }

/-- An HTML environment serving `docC4`. -/
def henvC4 : HtmlEnv :=
  { parseHtml := fun _ => docC4 }

/-- Witness for C4: the JSON-LD `articleBody` wins, yielding text
`Hello`. -/
theorem C4_witness :
    ∃ r, scrapeOnce envC4 henvC4 "https://www.linkedin.com/posts/x" = .ok r ∧
      r.text = "Hello" := by
  obtain ⟨r, hr, htext⟩ :=
    (C4_text_preference envC4 henvC4 "https://www.linkedin.com/posts/x"
      { status := 200 } (by rfl) (by decide) (by decide) (by decide) (by decide)
      (by decide)).1 (by decide)
  exact ⟨r, hr, by rw [htext]; rfl⟩

/-! ## Claim C6 -/

theorem setAdd_nodup {l : List String} {x : String} (h : l.Nodup) :
    (setAdd l x).Nodup := by
  unfold setAdd
  split_ifs with hc
  · exact h
  · have hx : x ∉ l := by
      intro hmem
      exact hc (by simpa using hmem)
    exact ((List.perm_append_singleton x l).nodup_iff).mpr
      ((List.nodup_cons).mpr ⟨hx, h⟩)

theorem foldl_setAdd_nodup : ∀ (l acc : List String), acc.Nodup →
    (l.foldl setAdd acc).Nodup := by
  intro l
  induction l with
  | nil => intro acc h; simpa using h
  | cons x rest ih =>
    intro acc h
    simpa using ih (setAdd acc x) (setAdd_nodup h)

theorem dedupList_nodup (l : List String) : (dedupList l).Nodup :=
  foldl_setAdd_nodup l [] (by simp)

theorem take_nodup {l : List String} (n : Nat) (h : l.Nodup) : (l.take n).Nodup :=
  List.Nodup.sublist (List.take_sublist n l) h

theorem take_length_le (l : List String) (n : Nat) : (l.take n).length ≤ n := by
  rw [List.length_take]
  exact min_le_left _ _

theorem scrapeMediaSets_nodup (env : JsEnv) (henv : HtmlEnv) (doc : PageDoc)
    (ps : Option SchemaPost) (pref : Option String) :
    (scrapeMediaSets env henv doc ps pref).1.Nodup ∧
    (scrapeMediaSets env henv doc ps pref).2.1.Nodup ∧
    (scrapeMediaSets env henv doc ps pref).2.2.Nodup := by
  unfold scrapeMediaSets
  dsimp only
  refine ⟨?_, dedupList_nodup _, dedupList_nodup _⟩
  split_ifs with hc
  · exact foldl_setAdd_nodup _ _ (dedupList_nodup _)
  · exact dedupList_nodup _

theorem scrapeOnce_ok_shape (env : JsEnv) (henv : HtmlEnv) (postUrl : String)
    (r : PostResult) (h : scrapeOnce env henv postUrl = .ok r) :
    ∃ (doc : PageDoc) (ps : Option SchemaPost) (pref : Option String),
      r.imageUrls = (scrapeMediaSets env henv doc ps pref).1.take MAX_MEDIA_COUNT ∧
      r.videoUrls = (scrapeMediaSets env henv doc ps pref).2.1.take MAX_MEDIA_COUNT ∧
      r.documentUrls = (scrapeMediaSets env henv doc ps pref).2.2.take MAX_MEDIA_COUNT := by
  unfold scrapeOnce at h
  repeat' (first | split at h | dsimp only at h)
  all_goals
    first
    | exact Except.noConfusion h
    | (injection h with h'
       exact ⟨_, _, _, by rw [← h'], by rw [← h'], by rw [← h']⟩)

/-- C6: every successful extraction returns media lists without duplicate
URL strings and of length at most the configured maximum (40). -/
theorem C6_media_lists_capped_nodup (env : JsEnv) (henv : HtmlEnv) (postUrl : String)
    (r : PostResult) (h : scrapeOnce env henv postUrl = .ok r) :
    (r.imageUrls.Nodup ∧ r.imageUrls.length ≤ MAX_MEDIA_COUNT) ∧
    (r.videoUrls.Nodup ∧ r.videoUrls.length ≤ MAX_MEDIA_COUNT) ∧
    (r.documentUrls.Nodup ∧ r.documentUrls.length ≤ MAX_MEDIA_COUNT) := by
  obtain ⟨doc, ps, pref, h1, h2, h3⟩ := scrapeOnce_ok_shape env henv postUrl r h
  obtain ⟨n1, n2, n3⟩ := scrapeMediaSets_nodup env henv doc ps pref
  rw [h1, h2, h3]
  exact ⟨⟨take_nodup _ n1, take_length_le _ _⟩,
         ⟨take_nodup _ n2, take_length_le _ _⟩,
         ⟨take_nodup _ n3, take_length_le _ _⟩⟩

/-- Witness for C6 at a concrete successful extraction. -/
theorem C6_witness :
    (let r : PostResult :=
      { text := "Hello", imageUrls := [], videoUrls := [], documentUrls := [],
        preferredReferer := some "https://www.linkedin.com/" }
     (r.imageUrls.Nodup ∧ r.imageUrls.length ≤ MAX_MEDIA_COUNT) ∧
     (r.videoUrls.Nodup ∧ r.videoUrls.length ≤ MAX_MEDIA_COUNT) ∧
     (r.documentUrls.Nodup ∧ r.documentUrls.length ≤ MAX_MEDIA_COUNT)) :=
  C6_media_lists_capped_nodup envC4 henvC4 "https://www.linkedin.com/posts/x"
    { text := "Hello", imageUrls := [], videoUrls := [], documentUrls := [],
      preferredReferer := some "https://www.linkedin.com/" } (by rfl)

/-! ## Claim C10 -/

/-- A validated, fragment-stripped candidate for an arbitrary validator. -/
def GoodCand (env : JsEnv) (v : String → Bool) (x : String) : Prop :=
  v x = true ∧ ∃ u : Url, u.hash = "" ∧ x = urlToStr u

/-- A URL string admissible in a media result: it passes
`isAllowedLinkedInMediaUrl` and is the serialisation of a parsed URL with
an empty fragment. -/
def GoodMediaUrl (env : JsEnv) (x : String) : Prop :=
  isAllowedLinkedInMediaUrl env x = true ∧ ∃ u : Url, u.hash = "" ∧ x = urlToStr u

/-- Every element of the list is admissible. -/
def GoodL (env : JsEnv) (l : List String) : Prop := ∀ x ∈ l, GoodMediaUrl env x

theorem GoodL_nil (env : JsEnv) : GoodL env [] := by
  intro x hx
  simp at hx

theorem GoodL_filter {env : JsEnv} {l : List String} (h : GoodL env l)
    (p : String → Bool) : GoodL env (l.filter p) :=
  fun x hx => h x (List.mem_of_mem_filter hx)

theorem GoodL_take {env : JsEnv} {l : List String} (h : GoodL env l) (n : Nat) :
    GoodL env (l.take n) :=
  fun x hx => h x (List.take_subset n l hx)

theorem GoodL_append {env : JsEnv} {l₁ l₂ : List String}
    (h₁ : GoodL env l₁) (h₂ : GoodL env l₂) : GoodL env (l₁ ++ l₂) := by
  intro x hx
  rcases List.mem_append.mp hx with hx | hx
  · exact h₁ x hx
  · exact h₂ x hx

theorem GoodL_setAdd {env : JsEnv} {s : List String} {y : String}
    (hs : GoodL env s) (hy : GoodMediaUrl env y) : GoodL env (setAdd s y) := by
  intro x hx
  unfold setAdd at hx
  split at hx
  · exact hs x hx
  · rcases List.mem_append.mp hx with hx | hx
    · exact hs x hx
    · simp only [List.mem_singleton] at hx
      exact hx ▸ hy

/-- A fold whose step preserves admissibility (for steps used on the
elements of the folded list) preserves admissibility. -/
theorem GoodL_foldl_mem {β : Type} (env : JsEnv) (f : List String → β → List String)
    (l : List β) (hf : ∀ s b, b ∈ l → GoodL env s → GoodL env (f s b)) :
    ∀ acc, GoodL env acc → GoodL env (l.foldl f acc) := by
  induction l with
  | nil => intro acc h; simpa using h
  | cons b rest ih =>
    intro acc h
    simp only [List.foldl_cons]
    exact ih (fun s b' hb' hs => hf s b' (List.mem_cons_of_mem b hb') hs)
      (f acc b) (hf acc b (List.mem_cons_self b rest) h)

theorem GoodL_foldl_setAdd {env : JsEnv} {l acc : List String}
    (hacc : GoodL env acc) (hl : GoodL env l) : GoodL env (l.foldl setAdd acc) :=
  GoodL_foldl_mem env setAdd l (fun s b hb hs => GoodL_setAdd hs (hl b hb)) acc hacc

theorem GoodL_dedupList {env : JsEnv} {l : List String} (h : GoodL env l) :
    GoodL env (dedupList l) :=
  GoodL_foldl_setAdd (GoodL_nil env) h

theorem addCandidatePart_mem (env : JsEnv) (v : String → Bool)
    (acc : List String × List String) (part : String) :
    ∀ x ∈ (addCandidatePart env v acc part).1, x ∈ acc.1 ∨ GoodCand env v x := by
  intro x hx
  unfold addCandidatePart at hx
  dsimp only at hx
  split at hx
  · exact Or.inl hx
  · cases hres : env.resolveBase (firstWsToken part) with
    | none =>
      rw [hres] at hx
      exact Or.inl hx
    | some parsed =>
      rw [hres] at hx
      dsimp only at hx
      split at hx
      · split at hx
        · exact Or.inl hx
        · rename_i hval hcont
          rcases List.mem_append.mp hx with hx | hx
          · exact Or.inl hx
          · simp only [List.mem_singleton] at hx
            subst hx
            exact Or.inr ⟨hval, ⟨{ parsed with hash := "" }, rfl, rfl⟩⟩
      · exact Or.inl hx

theorem foldl_addCandidatePart_mem (env : JsEnv) (v : String → Bool) :
    ∀ (parts : List String) (acc : List String × List String),
      ∀ x ∈ (parts.foldl (addCandidatePart env v) acc).1,
        x ∈ acc.1 ∨ GoodCand env v x := by
  intro parts
  induction parts with
  | nil => intro acc x hx; exact Or.inl hx
  | cons p rest ih =>
    intro acc x hx
    simp only [List.foldl_cons] at hx
    rcases ih (addCandidatePart env v acc p) x hx with hx' | hg
    · exact addCandidatePart_mem env v acc p x hx'
    · exact Or.inr hg

theorem addCandidateUrl_mem (env : JsEnv) (v : String → Bool)
    (s : List String) (raw : String) :
    ∀ x ∈ (addCandidateUrl env v s raw).1, x ∈ s ∨ GoodCand env v x := by
  intro x hx
  unfold addCandidateUrl at hx
  dsimp only at hx
  split at hx
  · exact Or.inl hx
  · exact foldl_addCandidatePart_mem env v _ (s, []) x hx

theorem GoodL_addD (env : JsEnv) {s : List String} (raw : String)
    (hs : GoodL env s) : GoodL env (addCandidateUrlD env s raw).1 := by
  intro x hx
  rcases addCandidateUrl_mem env (isAllowedLinkedInMediaUrl env) s raw x hx with hx' | hg
  · exact hs x hx'
  · exact ⟨hg.1, hg.2⟩

theorem addSchemaVal_good (env : JsEnv) {s : List String} (v : SchemaVal)
    (hs : GoodL env s) : GoodL env (addSchemaVal env s v) := by
  cases v with
  | str str => exact GoodL_addD env str hs
  | obj u c t => exact GoodL_addD env _ (GoodL_addD env _ (GoodL_addD env _ hs))

theorem addSchemaCandidate_good (env : JsEnv) {s : List String}
    (vals : List SchemaVal) (hs : GoodL env s) :
    GoodL env (addSchemaCandidate env s vals) :=
  GoodL_foldl_mem env (addSchemaVal env) vals
    (fun s' v _ hs' => addSchemaVal_good env v hs') s hs

theorem extractMediaFromSchema_good (env : JsEnv) (ps : Option SchemaPost) :
    GoodL env (extractMediaFromSchema env ps).imageUrls ∧
    GoodL env (extractMediaFromSchema env ps).videoUrls ∧
    GoodL env (extractMediaFromSchema env ps).documentUrls := by
  cases ps with
  | none =>
    exact ⟨GoodL_nil env, GoodL_nil env, GoodL_nil env⟩
  | some p =>
    unfold extractMediaFromSchema
    dsimp only
    refine ⟨GoodL_take (GoodL_filter ?_ _) _, GoodL_take (GoodL_filter ?_ _) _,
      GoodL_take (GoodL_filter ?_ _) _⟩
    · exact addSchemaCandidate_good env _ (addSchemaCandidate_good env _ (GoodL_nil env))
    · exact addSchemaCandidate_good env _ (addSchemaCandidate_good env _
        (addSchemaCandidate_good env _ (addSchemaCandidate_good env _ (GoodL_nil env))))
    · exact addSchemaCandidate_good env _ (addSchemaCandidate_good env _ (GoodL_nil env))

theorem processImgCandidate_good (env : JsEnv) (e : ImgElement)
    {s : List String} (candidate : String) (hs : GoodL env s) :
    GoodL env (processImgCandidate env e s candidate) := by
  unfold processImgCandidate
  dsimp only
  refine GoodL_foldl_mem env _ _ (fun s' url _ hs' => ?_) _ (GoodL_addD env candidate hs)
  split
  · exact hs'
  · exact GoodL_filter hs' _

theorem extractImageUrls_good (env : JsEnv) (els : List ImgElement) :
    GoodL env (extractImageUrls env els) := by
  unfold extractImageUrls
  refine GoodL_take (GoodL_foldl_mem env _ els (fun s e _ hs => ?_) _ (GoodL_nil env)) _
  exact GoodL_foldl_mem env _ e.attrs
    (fun s' c _ hs' => processImgCandidate_good env e c hs') s hs

theorem scriptMediaStep_good (env : JsEnv) (henv : HtmlEnv) (kind : String)
    {s : List String} (body : String) (hs : GoodL env s) :
    GoodL env (scriptMediaStep env henv kind s body) := by
  unfold scriptMediaStep
  split
  · exact hs
  · dsimp only
    by_cases hk : kind = "video"
    · rw [if_pos hk, if_pos hk]
      refine GoodL_foldl_mem env _ _ (fun s' m _ hs' => GoodL_addD env _ hs') _ ?_
      refine GoodL_foldl_mem env _ _ (fun s' mk _ hs' => ?_) _ hs
      exact GoodL_foldl_mem env _ _ (fun s'' m _ hs'' => GoodL_addD env _ hs'') _ hs'
    · rw [if_neg hk, if_neg hk]
      refine GoodL_foldl_mem env _ _ (fun s' mk _ hs' => ?_) _ hs
      exact GoodL_foldl_mem env _ _ (fun s'' m _ hs'' => GoodL_addD env _ hs'') _ hs'  

theorem extractScriptMediaUrls_good (env : JsEnv) (henv : HtmlEnv)
    (scripts : List String) (kind : String) :
    GoodL env (extractScriptMediaUrls env henv scripts kind) :=
  GoodL_foldl_mem env (scriptMediaStep env henv kind) scripts
    (fun s body _ hs => scriptMediaStep_good env henv kind body hs) [] (GoodL_nil env)

theorem videoElementStep_good (env : JsEnv) (henv : HtmlEnv)
    {set : List String} (e : VideoElement) (hs : GoodL env set) :
    GoodL env (videoElementStep env henv set e) := by
  unfold videoElementStep
  dsimp only
  refine GoodL_foldl_mem env _ _ (fun s' m _ hs' => GoodL_addD env _ hs') _ ?_
  refine GoodL_foldl_mem env _ e.attrs (fun s' attrValue _ hs' => ?_) _ hs
  exact GoodL_foldl_mem env _ _ (fun s'' m _ hs'' => GoodL_addD env _ hs'') _
    (GoodL_addD env attrValue hs')

theorem extractVideoUrls_good (env : JsEnv) (henv : HtmlEnv) (doc : PageDoc) :
    GoodL env (extractVideoUrls env henv doc) := by
  unfold extractVideoUrls
  dsimp only
  refine GoodL_take (GoodL_filter ?_ _) _
  have h1 : GoodL env (doc.videoElements.foldl (videoElementStep env henv) []) :=
    GoodL_foldl_mem env _ doc.videoElements
      (fun s e _ hs => videoElementStep_good env henv e hs) [] (GoodL_nil env)
  have h2 : GoodL env ((extractScriptMediaUrls env henv doc.scripts "video").foldl
      setAdd (doc.videoElements.foldl (videoElementStep env henv) [])) :=
    GoodL_foldl_setAdd h1 (extractScriptMediaUrls_good env henv doc.scripts "video")
  split
  · exact GoodL_addD env _ (GoodL_addD env _ h2)
  · exact h2

theorem extractDocumentUrls_good (env : JsEnv) (henv : HtmlEnv) (doc : PageDoc) :
    GoodL env (extractDocumentUrls env henv doc) := by
  unfold extractDocumentUrls
  dsimp only
  refine GoodL_take (GoodL_filter ?_ _) _
  have h1 : GoodL env (doc.docElements.foldl (fun s e =>
      (addCandidateUrlD env (addCandidateUrlD env (addCandidateUrlD env s e.href).1
        e.dataDocumentUrl).1 e.src).1) []) :=
    GoodL_foldl_mem env _ doc.docElements
      (fun s e _ hs => GoodL_addD env _ (GoodL_addD env _ (GoodL_addD env _ hs)))
      [] (GoodL_nil env)
  split
  · exact GoodL_foldl_setAdd h1 (extractScriptMediaUrls_good env henv doc.scripts "document")
  · exact h1

theorem nativeCollectStep_good (env : JsEnv)
    (acc : List String × List String × List String) (config : NativeDocConfig)
    (h1 : GoodL env acc.1) (h2 : GoodL env acc.2.1) :
    GoodL env (nativeCollectStep env acc config).1 ∧
    GoodL env (nativeCollectStep env acc config).2.1 := by
  unfold nativeCollectStep
  dsimp only
  exact ⟨GoodL_foldl_mem env _ _ (fun s src _ hs => GoodL_addD env src hs) _ h1,
    GoodL_addD env _ h2⟩

theorem foldl_nativeCollectStep_good (env : JsEnv) :
    ∀ (configs : List NativeDocConfig) (acc : List String × List String × List String),
      GoodL env acc.1 → GoodL env acc.2.1 →
      GoodL env (configs.foldl (nativeCollectStep env) acc).1 ∧
      GoodL env (configs.foldl (nativeCollectStep env) acc).2.1 := by
  intro configs
  induction configs with
  | nil => intro acc h1 h2; exact ⟨h1, h2⟩
  | cons c rest ih =>
    intro acc h1 h2
    simp only [List.foldl_cons]
    obtain ⟨g1, g2⟩ := nativeCollectStep_good env acc c h1 h2
    exact ih (nativeCollectStep env acc c) g1 g2

theorem nativeManifestStep_good (env : JsEnv) (henv : HtmlEnv) (referers : List String)
    (acc : List String × List String × Bool) (manifestUrl : String)
    (h1 : GoodL env acc.1) (h2 : GoodL env acc.2.1) :
    GoodL env (nativeManifestStep env henv referers acc manifestUrl).1 ∧
    GoodL env (nativeManifestStep env henv referers acc manifestUrl).2.1 := by
  unfold nativeManifestStep
  cases fetchMediaJson env henv manifestUrl referers with
  | none => exact ⟨h1, h2⟩
  | some payload =>
    dsimp only
    have hd : GoodL env (addCandidateUrlD env
        (addCandidateUrlD env acc.2.1 payload.transcribedDocumentUrl).1
        payload.downloadUrl).1 :=
      GoodL_addD env _ (GoodL_addD env _ h2)
    cases pickImageManifestUrl payload with
    | none => exact ⟨h1, hd⟩
    | some imageManifestUrl =>
      dsimp only
      cases fetchMediaJson env henv imageManifestUrl referers with
      | none => exact ⟨h1, hd⟩
      | some imagePayload =>
        dsimp only
        exact ⟨GoodL_foldl_mem env _ _ (fun s p _ hs => GoodL_addD env p hs) _ h1, hd⟩

theorem foldl_nativeManifestStep_good (env : JsEnv) (henv : HtmlEnv)
    (referers : List String) :
    ∀ (manifests : List String) (acc : List String × List String × Bool),
      GoodL env acc.1 → GoodL env acc.2.1 →
      GoodL env (manifests.foldl (nativeManifestStep env henv referers) acc).1 ∧
      GoodL env (manifests.foldl (nativeManifestStep env henv referers) acc).2.1 := by
  intro manifests
  induction manifests with
  | nil => intro acc h1 h2; exact ⟨h1, h2⟩
  | cons m rest ih =>
    intro acc h1 h2
    simp only [List.foldl_cons]
    obtain ⟨g1, g2⟩ := nativeManifestStep_good env henv referers acc m h1 h2
    exact ih (nativeManifestStep env henv referers acc m) g1 g2

theorem extractMediaFromNativeDocuments_good (env : JsEnv) (henv : HtmlEnv)
    (configs : List NativeDocConfig) (pref : Option String) :
    GoodL env (extractMediaFromNativeDocuments env henv configs pref).imageUrls ∧
    GoodL env (extractMediaFromNativeDocuments env henv configs pref).videoUrls ∧
    GoodL env (extractMediaFromNativeDocuments env henv configs pref).documentUrls := by
  unfold extractMediaFromNativeDocuments
  split
  · exact ⟨GoodL_nil env, GoodL_nil env, GoodL_nil env⟩
  · dsimp only
    obtain ⟨c1, c2⟩ := foldl_nativeCollectStep_good env configs ([], [], [])
      (GoodL_nil env) (GoodL_nil env)
    obtain ⟨p1, p2⟩ := foldl_nativeManifestStep_good env henv
      (buildRefererCandidates env pref) ((nativeCollect env configs).2.2.take MAX_EMBED_FETCHES)
      ((nativeCollect env configs).1, (nativeCollect env configs).2.1, false) c1 c2
    exact ⟨GoodL_take (GoodL_filter (GoodL_filter p1 _) _) _, GoodL_nil env,
      GoodL_take (GoodL_filter p2 _) _⟩

theorem embedAttrStep_good (env : JsEnv) (henv : HtmlEnv)
    {s : List String} (value : String) (hs : GoodL env s) :
    GoodL env (embedAttrStep env henv s value) := by
  unfold embedAttrStep
  split
  · exact hs
  · dsimp only
    refine GoodL_foldl_mem env _ _ (fun s' kind _ hs' => ?_) _ ?_
    · exact GoodL_foldl_mem env _ _ (fun s'' u _ hs'' => GoodL_addD env u hs'') _ hs'
    · exact GoodL_foldl_mem env _ _ (fun s' u _ hs' => GoodL_addD env u hs') _
        (GoodL_addD env value hs)

theorem extractMediaFromEmbedDom_good (env : JsEnv) (henv : HtmlEnv) (d : EmbedDoc) :
    GoodL env (extractMediaFromEmbedDom env henv d).imageUrls ∧
    GoodL env (extractMediaFromEmbedDom env henv d).videoUrls ∧
    GoodL env (extractMediaFromEmbedDom env henv d).documentUrls := by
  unfold extractMediaFromEmbedDom
  dsimp only
  have hc : GoodL env (["image", "video", "document"].foldl (fun s kind =>
      (extractScriptMediaUrls env henv d.scripts kind).foldl setAdd s)
      (d.attrVals.foldl (embedAttrStep env henv) [])) := by
    refine GoodL_foldl_mem env _ _ (fun s' kind _ hs' =>
      GoodL_foldl_setAdd hs' (extractScriptMediaUrls_good env henv d.scripts kind)) _ ?_
    exact GoodL_foldl_mem env _ _ (fun s' v _ hs' => embedAttrStep_good env henv v hs')
      _ (GoodL_nil env)
  exact ⟨GoodL_take (GoodL_filter hc _) _, GoodL_take (GoodL_filter hc _) _,
    GoodL_take (GoodL_filter hc _) _⟩

theorem embedFrameResult_good (env : JsEnv) (henv : HtmlEnv)
    (referers : List String) (frameUrl : String) :
    GoodL env (embedFrameResult env henv referers frameUrl).imageUrls ∧
    GoodL env (embedFrameResult env henv referers frameUrl).videoUrls ∧
    GoodL env (embedFrameResult env henv referers frameUrl).documentUrls := by
  unfold embedFrameResult
  cases fetchEmbedResponse env frameUrl referers with
  | none => exact ⟨GoodL_nil env, GoodL_nil env, GoodL_nil env⟩
  | some response => exact extractMediaFromEmbedDom_good env henv _

theorem extractMediaFromEmbeds_good (env : JsEnv) (henv : HtmlEnv)
    (els : List FrameElement) (pref : Option String) :
    GoodL env (extractMediaFromEmbeds env henv els pref).imageUrls ∧
    GoodL env (extractMediaFromEmbeds env henv els pref).videoUrls ∧
    GoodL env (extractMediaFromEmbeds env henv els pref).documentUrls := by
  unfold extractMediaFromEmbeds
  dsimp only
  split
  · exact ⟨GoodL_nil env, GoodL_nil env, GoodL_nil env⟩
  · refine ⟨GoodL_take ?_ _, GoodL_take ?_ _, GoodL_take ?_ _⟩
    · refine GoodL_foldl_mem env _ _ (fun s r hr hs => GoodL_foldl_setAdd hs ?_) _ (GoodL_nil env)
      obtain ⟨fu, _, rfl⟩ := List.mem_map.mp hr
      exact (embedFrameResult_good env henv _ fu).1
    · refine GoodL_foldl_mem env _ _ (fun s r hr hs => GoodL_foldl_setAdd hs ?_) _ (GoodL_nil env)
      obtain ⟨fu, _, rfl⟩ := List.mem_map.mp hr
      exact (embedFrameResult_good env henv _ fu).2.1
    · refine GoodL_foldl_mem env _ _ (fun s r hr hs => GoodL_foldl_setAdd hs ?_) _ (GoodL_nil env)
      obtain ⟨fu, _, rfl⟩ := List.mem_map.mp hr
      exact (embedFrameResult_good env henv _ fu).2.2

theorem extractOgImageFallback_good (env : JsEnv) (doc : PageDoc) :
    GoodL env (extractOgImageFallback env doc) := by
  unfold extractOgImageFallback
  exact GoodL_take (GoodL_filter (GoodL_addD env _ (GoodL_addD env _ (GoodL_nil env))) _) _

theorem scrapeMediaSets_good (env : JsEnv) (henv : HtmlEnv) (doc : PageDoc)
    (ps : Option SchemaPost) (pref : Option String) :
    GoodL env (scrapeMediaSets env henv doc ps pref).1 ∧
    GoodL env (scrapeMediaSets env henv doc ps pref).2.1 ∧
    GoodL env (scrapeMediaSets env henv doc ps pref).2.2 := by
  unfold scrapeMediaSets
  dsimp only
  obtain ⟨s1, s2, s3⟩ := extractMediaFromSchema_good env ps
  obtain ⟨n1, n2, n3⟩ :=
    extractMediaFromNativeDocuments_good env henv doc.nativeDocConfigs pref
  obtain ⟨e1, e2, e3⟩ := extractMediaFromEmbeds_good env henv doc.frameElements pref
  have hi := GoodL_dedupList (GoodL_append (GoodL_append
    (GoodL_append s1 (extractImageUrls_good env doc.imgElements)) n1) e1)
  have hv := GoodL_dedupList (GoodL_append (GoodL_append
    (GoodL_append s2 (extractVideoUrls_good env henv doc)) n2) e2)
  have hd := GoodL_dedupList (GoodL_append (GoodL_append
    (GoodL_append s3 (extractDocumentUrls_good env henv doc)) n3) e3)
  refine ⟨?_, hv, hd⟩
  split
  · exact GoodL_foldl_setAdd hi (extractOgImageFallback_good env doc)
  · exact hi

theorem isAllowedLinkedInMediaUrl_spec (env : JsEnv) (url : String)
    (h : isAllowedLinkedInMediaUrl env url = true) :
    ∃ pu : Url, env.parse url = some pu ∧ pu.protocol = "https:" ∧
      isAllowedLinkedInMediaHost pu.hostname = true := by
  unfold isAllowedLinkedInMediaUrl at h
  cases hp : env.parse url with
  | none =>
    rw [hp] at h
    simp at h
  | some u =>
    rw [hp] at h
    dsimp only at h
    split at h
    · simp at h
    · rename_i hproto
      exact ⟨u, rfl, not_not.mp hproto, h⟩

/-- C10: every URL in the media lists of a successful extraction passed
the media-URL validator (so it parses, is `https`, and its hostname
passes the `.licdn.com` allow-list) and is the serialisation of a parsed
URL whose fragment was cleared — the property holds uniformly for URLs
contributed by the schema, DOM, inline-script, native-document-manifest,
embed-frame and Open-Graph-fallback strategies, since every one of them
admits URLs only through `addCandidateUrl`. -/
theorem C10_media_urls_validated (env : JsEnv) (henv : HtmlEnv) (postUrl : String)
    (r : PostResult) (h : scrapeOnce env henv postUrl = .ok r) :
    ∀ url, (url ∈ r.imageUrls ∨ url ∈ r.videoUrls ∨ url ∈ r.documentUrls) →
      isAllowedLinkedInMediaUrl env url = true ∧
      (∃ pu : Url, env.parse url = some pu ∧ pu.protocol = "https:" ∧
        isAllowedLinkedInMediaHost pu.hostname = true) ∧
      (∃ u : Url, u.hash = "" ∧ url = urlToStr u) := by
  obtain ⟨doc, ps, pref, h1, h2, h3⟩ := scrapeOnce_ok_shape env henv postUrl r h
  obtain ⟨g1, g2, g3⟩ := scrapeMediaSets_good env henv doc ps pref
  intro url hurl
  have hg : GoodMediaUrl env url := by
    rcases hurl with hu | hu | hu
    · exact GoodL_take g1 MAX_MEDIA_COUNT url (h1 ▸ hu)
    · exact GoodL_take g2 MAX_MEDIA_COUNT url (h2 ▸ hu)
    · exact GoodL_take g3 MAX_MEDIA_COUNT url (h3 ▸ hu)
  exact ⟨hg.1, isAllowedLinkedInMediaUrl_spec env url hg.1, hg.2⟩

/-- A page whose JSON-LD carries a post body and one CDN image URL. -/
def schemaC10 : SchemaPost :=
  { types := ["SocialMediaPosting"], articleBody := some "Hi",
    image := [.str "https://media.licdn.com/dms/image/abc"] }

def docC10 : PageDoc :=
  { schemaObjects := [schemaC10] }

/-- An HTML environment serving `docC10`. -/
def henvC10 : HtmlEnv :=
  { parseHtml := fun _ => docC10 }

/-- Witness for C10: the schema-contributed image URL of a concrete
successful extraction is validated, https, allow-listed and
fragment-free. -/
theorem C10_witness :
    isAllowedLinkedInMediaUrl envC4 "https://media.licdn.com/dms/image/abc" = true ∧
    (∃ pu : Url, envC4.parse "https://media.licdn.com/dms/image/abc" = some pu ∧
      pu.protocol = "https:" ∧ isAllowedLinkedInMediaHost pu.hostname = true) ∧
    (∃ u : Url, u.hash = "" ∧ "https://media.licdn.com/dms/image/abc" = urlToStr u) :=
  C10_media_urls_validated envC4 henvC10 "https://www.linkedin.com/posts/x"
    { text := "Hi", imageUrls := ["https://media.licdn.com/dms/image/abc"],
      videoUrls := [], documentUrls := [],
      preferredReferer := some "https://www.linkedin.com/" }
    (by rfl) "https://media.licdn.com/dms/image/abc" (Or.inl (by simp))

/-! ## Claim C7 -/

/-- Invariant of the dedup loop: the seen-URL set mirrors the accepted
entries' URLs, is duplicate-free, and every accepted entry passed the
media-URL validator. -/
def DedupInv (env : JsEnv) (acc : List String × List DedupedEntry) : Prop :=
  acc.2.map (fun e => e.url) = acc.1 ∧ acc.1.Nodup ∧
  ∀ e ∈ acc.2, isAllowedLinkedInMediaUrl env e.url = true

theorem dedupEntriesStep_inv (env : JsEnv) (pref : Option String)
    (acc : List String × List DedupedEntry) (entry : MediaEntry)
    (h : DedupInv env acc) : DedupInv env (dedupEntriesStep env pref acc entry) := by
  unfold dedupEntriesStep
  dsimp only
  split
  · exact h
  · rename_i hcond
    have hval : isAllowedLinkedInMediaUrl env (normalizeWhitespace entry.url) = true := by
      by_contra hv
      rw [Bool.not_eq_true] at hv
      exact hcond (by simp [hv])
    have hncont : acc.1.contains (normalizeWhitespace entry.url) = false := by
      by_contra hc
      rw [Bool.not_eq_false] at hc
      exact hcond (by rw [hc]; simp)
    obtain ⟨hmap, hnodup, hall⟩ := h
    refine ⟨?_, ?_, ?_⟩
    · simp only [List.map_append, hmap, List.map_cons, List.map_nil]
    · have hnm : normalizeWhitespace entry.url ∉ acc.1 := by
        intro hmem
        have hc2 : acc.1.contains (normalizeWhitespace entry.url) = true :=
          List.elem_iff.mpr hmem
        rw [hncont] at hc2
        exact Bool.false_ne_true hc2
      exact ((List.perm_append_singleton _ _).nodup_iff).mpr
        ((List.nodup_cons).mpr ⟨hnm, hnodup⟩)
    · intro e he
      rcases List.mem_append.mp he with he | he
      · exact hall e he
      · simp only [List.mem_singleton] at he
        subst he
        exact hval

theorem foldl_dedupEntriesStep_inv (env : JsEnv) (pref : Option String) :
    ∀ (entries : List MediaEntry) (acc : List String × List DedupedEntry),
      DedupInv env acc →
      DedupInv env (entries.foldl (dedupEntriesStep env pref) acc) := by
  intro entries
  induction entries with
  | nil => intro acc h; exact h
  | cons e rest ih =>
    intro acc h
    simp only [List.foldl_cons]
    exact ih _ (dedupEntriesStep_inv env pref acc e h)

theorem dedupMediaEntries_inv (env : JsEnv) (entries : List MediaEntry)
    (pref : Option String) :
    ((dedupMediaEntries env entries pref).map (fun e => e.url)).Nodup ∧
    ∀ e ∈ dedupMediaEntries env entries pref,
      isAllowedLinkedInMediaUrl env e.url = true := by
  have h := foldl_dedupEntriesStep_inv env pref entries ([], [])
    ⟨rfl, List.nodup_nil, by intro e he; simp at he⟩
  obtain ⟨hmap, hnodup, hall⟩ := h
  unfold dedupMediaEntries
  rw [hmap]
  exact ⟨hnodup, hall⟩

theorem downloadOne_url (env : JsEnv) (i : Nat) (e : DedupedEntry)
    (d : DownloadedMedia) (h : downloadOne env i e = some d) : d.url = e.url := by
  unfold downloadOne at h
  repeat' (first | split at h | dsimp only at h)
  all_goals
    first
    | exact Option.noConfusion h
    | (injection h with h'
       subst h'
       rfl)

theorem filterMap_download_sublist (env : JsEnv) :
    ∀ (l : List (Nat × DedupedEntry)),
      List.Sublist ((l.filterMap (fun p => downloadOne env p.1 p.2)).map (fun d => d.url))
        (l.map (fun p => p.2.url)) := by
  intro l
  induction l with
  | nil => simp
  | cons p rest ih =>
    cases hd : downloadOne env p.1 p.2 with
    | none =>
      simp only [List.filterMap_cons, hd, List.map_cons]
      exact ih.cons _
    | some d =>
      simp only [List.filterMap_cons, hd, List.map_cons]
      rw [downloadOne_url env p.1 p.2 d hd]
      exact ih.cons₂ _

/-- C7: `downloadLinkedInMedia` deduplicates by exact (normalized) URL
and discards URLs failing the media-host allow-list; the returned list's
URLs form a sublist (same relative order, possibly with items dropped)
of the deduplicated input's URLs; the batch never exceeds the download
cap; and every per-item success is kept — an item failing means only
that item is missing, the batch result is still produced. -/
theorem C7_download_batch (env : JsEnv) (entries : List MediaEntry)
    (pref : Option String) :
    ((dedupMediaEntries env entries pref).map (fun e => e.url)).Nodup ∧
    (∀ e ∈ dedupMediaEntries env entries pref,
      isAllowedLinkedInMediaUrl env e.url = true) ∧
    List.Sublist ((downloadLinkedInMedia env entries pref).map (fun d => d.url))
      ((dedupMediaEntries env entries pref).map (fun e => e.url)) ∧
    (downloadLinkedInMedia env entries pref).length ≤ MAX_DOWNLOAD_COUNT ∧
    (∀ p ∈ ((dedupMediaEntries env entries pref).take MAX_DOWNLOAD_COUNT).enum,
      ∀ d, downloadOne env p.1 p.2 = some d →
        d ∈ downloadLinkedInMedia env entries pref) := by
  obtain ⟨hnodup, hval⟩ := dedupMediaEntries_inv env entries pref
  refine ⟨hnodup, hval, ?_, ?_, ?_⟩
  · unfold downloadLinkedInMedia
    dsimp only
    split
    · simp
    · have h1 := filterMap_download_sublist env
        ((dedupMediaEntries env entries pref).take MAX_DOWNLOAD_COUNT).enum
      have h2 : (((dedupMediaEntries env entries pref).take MAX_DOWNLOAD_COUNT).enum.map
          (fun p => p.2.url)) =
          (((dedupMediaEntries env entries pref).take MAX_DOWNLOAD_COUNT).map
            (fun e => e.url)) := by
        rw [show (fun p : Nat × DedupedEntry => p.2.url) =
          ((fun e : DedupedEntry => e.url) ∘ Prod.snd) from rfl]
        rw [← List.map_map, List.enum_map_snd]
      rw [h2] at h1
      exact h1.trans ((List.take_sublist _ _).map _)
  · unfold downloadLinkedInMedia
    dsimp only
    split
    · simp
    · refine le_trans (List.length_filterMap_le _ _) ?_
      rw [List.enum_length]
      exact le_trans (List.length_take_le _ _) (le_refl _)
  · intro p hp d hd
    unfold downloadLinkedInMedia
    dsimp only
    split
    · rename_i hempty
      rw [List.isEmpty_iff] at hempty
      rw [hempty] at hp
      simp at hp
    · exact List.mem_filterMap.mpr ⟨p, hp, hd⟩

/-- An environment whose media downloads succeed with a JPEG body. -/
def envC7 : JsEnv :=
  { testEnv with
    send := fun _ _ => .ok { status := 200, contentType := "image/jpeg", body := "xx" } }

/-- Three download candidates: a valid one, its exact duplicate, and a
disallowed-host URL. -/
def entriesC7 : List MediaEntry :=
  [{ url := "https://media.licdn.com/dms/image/a", type := "image" },
   { url := "https://media.licdn.com/dms/image/a", type := "image" },
   { url := "https://evil.com/x", type := "image" }]

/-- The deduplicated entry the concrete C7 batch produces. -/
def dEntryC7 : DedupedEntry :=
  { url := "https://media.licdn.com/dms/image/a", requestedType := "image",
    referer := none }

/-- The downloaded item the concrete C7 batch produces. -/
def dMediaC7 : DownloadedMedia :=
  { url := "https://media.licdn.com/dms/image/a", body := "xx",
    mediaType := "image", mimeType := "image/jpeg",
    filename := "linkedin-image-1.jpg" }

/-- Witness for C7: on the concrete batch, the dedup invariants hold and
the one successful download is kept in the result. -/
theorem C7_witness :
    ((dedupMediaEntries envC7 entriesC7 none).map (fun e => e.url)).Nodup ∧
    List.Sublist ((downloadLinkedInMedia envC7 entriesC7 none).map (fun d => d.url))
      ((dedupMediaEntries envC7 entriesC7 none).map (fun e => e.url)) ∧
    (downloadLinkedInMedia envC7 entriesC7 none).length ≤ MAX_DOWNLOAD_COUNT ∧
    dMediaC7 ∈ downloadLinkedInMedia envC7 entriesC7 none := by
  have h := C7_download_batch envC7 entriesC7 none
  refine ⟨h.1, h.2.2.1, h.2.2.2.1, ?_⟩
  exact h.2.2.2.2 (0, dEntryC7) (by decide) dMediaC7 (by rfl)

end WhatAnime
